/-
Verification of the paygate transfer-orchestration core against its design
specification.  The Go sources embedded here are:
  * internal/depository/verification/microdeposit/cursor.go  (micro-deposit cursor)
  * internal/transfers/transfers.go                          (transfer pipeline)
  * internal/route (idempotency responder; only its tests are in the tree,
    so that part is modelled from the specification, as marked below)
Timestamps are modelled as naturals, monetary amounts as exact decimal strings
parsed into fixed-point pairs, and database tables as association lists.
-/
import Mathlib

namespace Paygate

/-! ### Micro-deposit cursor (cursor.go) -/

/-- A row of the `micro_deposits` table, as read by `Cursor.Next`:
`select depository_id, user_id, amount, file_id, created_at from micro_deposits
 where deleted_at is null and merged_filename is null and created_at > ?
 order by created_at asc limit ?`. -/
structure Row where
  depositoryID : String
  userID : String
  amt : String
  fileID : String
  createdAt : Nat
  mergedFilename : Option String
  deletedAt : Option Nat
deriving DecidableEq

/-- The `UploadableCredit` of cursor.go, with the amount already parsed into a
fixed-point (units, cents) pair. -/
structure UploadableCredit where
  depositoryID : String
  userID : String
  amount : Nat × Nat
  fileID : String
  createdAt : Nat
deriving DecidableEq

/-- The cursor state from cursor.go: batch size and the `newerThan` watermark. -/
structure Cursor where
  batchSize : Nat
  newerThan : Nat
deriving DecidableEq

/-- The WHERE clause of the query in `Cursor.Next`: no deletion marker, no merged
filename, and `created_at > newerThan` (strict). -/
def eligibleRow (newerThan : Nat) (r : Row) : Bool :=
  r.deletedAt.isNone && r.mergedFilename.isNone && decide (newerThan < r.createdAt)

/-- Ordering used by `order by created_at asc`. -/
def rowLE (a b : Row) : Prop := a.createdAt ≤ b.createdAt

instance : DecidableRel rowLE := fun a b => Nat.decLe a.createdAt b.createdAt

instance : IsTotal Row rowLE := ⟨fun a b => Nat.le_total a.createdAt b.createdAt⟩

instance : IsTrans Row rowLE := ⟨fun _ _ _ => Nat.le_trans⟩

/-- The rows produced by the SQL query in `Cursor.Next`: filter by the WHERE
clause, order ascending by `created_at`, and apply `limit batchSize`. -/
def queryRows (db : List Row) (cur : Cursor) : List Row :=
  (List.insertionSort rowLE (db.filter (eligibleRow cur.newerThan))).take cur.batchSize

/-- Split a character list at its unique dot; fails when there is no dot or more
than one. -/
def splitDot : List Char → Option (List Char × List Char)
  | [] => none
  | c :: rest =>
    if c = '.' then
      if rest.contains '.' then none else some ([], rest)
    else
      match splitDot rest with
      | none => none
      | some (u, d) => some (c :: u, d)

/-- Parse a nonempty run of decimal digits into a natural number. -/
def parseDigitsAux : List Char → Nat → Option Nat
  | [], acc => some acc
  | c :: rest, acc =>
    if c.isDigit then parseDigitsAux rest (acc * 10 + (c.toNat - 48)) else none

def parseDigits : List Char → Option Nat
  | [] => none
  | c :: rest => parseDigitsAux (c :: rest) 0

/-- Modelled from the spec: `model.Amount.FromString` (package internal/model is
not part of the sources here).  Amounts are persisted as exact decimal strings
and parsed back into a fixed-point (units, cents) representation; any malformed
string fails to parse. -/
def amountFromString (s : String) : Option (Nat × Nat) :=
  match splitDot s.data with
  | none => none
  | some (u, d) =>
    match parseDigits u, parseDigits d with
    | some u', some d' => if d.length = 2 then some (u', d') else none
    | _, _ => none

/-- Conversion of a scanned row (with its parsed amount) into an `UploadableCredit`. -/
def toCredit (r : Row) (a : Nat × Nat) : UploadableCredit :=
  { depositoryID := r.depositoryID
    userID := r.userID
    amount := a
    fileID := r.fileID
    createdAt := r.createdAt }

/-- The row-scanning loop of `Cursor.Next`: each row's amount string is parsed
with `Amount.FromString`; the first failure aborts the whole extraction. -/
def scanRows : List Row → Except String (List UploadableCredit)
  | [] => .ok []
  | r :: rest =>
    match amountFromString r.amt with
    | none => .error ("transferCursor.Next: " ++ r.amt ++ " Amount from string: parse failure")
    | some a =>
      match scanRows rest with
      | .error e => .error e
      | .ok cs => .ok (toCredit r a :: cs)

/-- The `max` accumulation in `Cursor.Next`: starting from the current watermark,
take each row's `CreatedAt` when it is strictly later. -/
def advanceWatermark (wm : Nat) (rows : List Row) : Nat :=
  rows.foldl (fun m r => if m < r.createdAt then r.createdAt else m) wm

/-- The body of `Cursor.Next` from cursor.go: query the eligible window, scan rows (failing
the whole extraction on a malformed amount), and advance `newerThan` to the
latest timestamp observed.  On error the cursor is left unchanged. -/
def Cursor.next (db : List Row) (cur : Cursor) :
    Except String (List UploadableCredit × Cursor) :=
  match scanRows (queryRows db cur) with
  | .error e => .error e
  | .ok credits =>
    .ok (credits, { cur with newerThan := advanceWatermark cur.newerThan (queryRows db cur) })

/-- The `GetCursor` constructor from cursor.go: a fresh cursor whose watermark is the first
instant of the current processing day (the day start is a parameter here, since
wall-clock time is external). -/
def getCursor (batchSize dayStart : Nat) : Cursor :=
  { batchSize := batchSize, newerThan := dayStart }

/-- Runs `n` sequential `Next` calls against a fixed table, collecting the batches.
Iteration stops if a call fails. -/
def runNext (db : List Row) : Nat → Cursor → List (List UploadableCredit) × Cursor
  | 0, cur => ([], cur)
  | n + 1, cur =>
    match Cursor.next db cur with
    | .error _ => ([], cur)
    | .ok (batch, cur') => (batch :: (runNext db n cur').1, (runNext db n cur').2)

/-! ### Cursor lemmas -/

theorem length_queryRows (db : List Row) (cur : Cursor) :
    (queryRows db cur).length ≤ cur.batchSize :=
  List.length_take_le _ _

theorem mem_queryRows {db : List Row} {cur : Cursor} {r : Row}
    (h : r ∈ queryRows db cur) :
    r ∈ db ∧ eligibleRow cur.newerThan r = true := by
  have h1 : r ∈ List.insertionSort rowLE (db.filter (eligibleRow cur.newerThan)) :=
    (List.take_sublist _ _).subset h
  have h2 : r ∈ db.filter (eligibleRow cur.newerThan) :=
    (List.mem_insertionSort rowLE).mp h1
  exact List.mem_filter.mp h2

theorem sorted_queryRows (db : List Row) (cur : Cursor) :
    (queryRows db cur).Pairwise rowLE :=
  List.Pairwise.sublist (List.take_sublist _ _)
    (List.sorted_insertionSort rowLE (db.filter (eligibleRow cur.newerThan)))

theorem le_advanceWatermark (rows : List Row) (wm : Nat) :
    wm ≤ advanceWatermark wm rows := by
  induction rows generalizing wm with
  | nil => exact Nat.le_refl wm
  | cons r rest ih =>
    have step : wm ≤ if wm < r.createdAt then r.createdAt else wm := by
      split
      · omega
      · exact Nat.le_refl wm
    exact Nat.le_trans step (ih _)

theorem advanceWatermark_ge {rows : List Row} (wm : Nat) :
    ∀ r ∈ rows, r.createdAt ≤ advanceWatermark wm rows := by
  induction rows generalizing wm with
  | nil => intro r hr; cases hr
  | cons x rest ih =>
    intro r hr
    rcases List.mem_cons.mp hr with rfl | hr'
    · have step : r.createdAt ≤ if wm < r.createdAt then r.createdAt else wm := by
        split
        · exact Nat.le_refl _
        · omega
      exact Nat.le_trans step (le_advanceWatermark rest _)
    · exact ih _ r hr'

theorem advanceWatermark_eq_or_mem (rows : List Row) (wm : Nat) :
    advanceWatermark wm rows = wm ∨ ∃ r ∈ rows, advanceWatermark wm rows = r.createdAt := by
  induction rows generalizing wm with
  | nil => exact Or.inl rfl
  | cons x rest ih =>
    have hdef : advanceWatermark wm (x :: rest) =
        advanceWatermark (if wm < x.createdAt then x.createdAt else wm) rest := rfl
    rw [hdef]
    rcases ih (if wm < x.createdAt then x.createdAt else wm) with h | ⟨r, hr, h⟩
    · by_cases hx : wm < x.createdAt
      · refine Or.inr ⟨x, List.mem_cons_self _ _, ?_⟩
        rw [h, if_pos hx]
      · rw [h, if_neg hx]
        exact Or.inl rfl
    · exact Or.inr ⟨r, List.mem_cons_of_mem _ hr, h⟩

theorem scanRows_map_createdAt {rows : List Row} {cs : List UploadableCredit}
    (h : scanRows rows = .ok cs) :
    cs.map UploadableCredit.createdAt = rows.map Row.createdAt := by
  induction rows generalizing cs with
  | nil => cases h; rfl
  | cons r rest ih =>
    unfold scanRows at h
    cases hp : amountFromString r.amt with
    | none => rw [hp] at h; cases h
    | some a =>
      rw [hp] at h
      cases hs : scanRows rest with
      | error e => rw [hs] at h; cases h
      | ok cs' =>
        rw [hs] at h
        cases h
        simpa [toCredit] using ih hs

theorem scanRows_mem {rows : List Row} {cs : List UploadableCredit}
    (h : scanRows rows = .ok cs) :
    ∀ r ∈ rows, ∃ a, amountFromString r.amt = some a ∧ toCredit r a ∈ cs := by
  induction rows generalizing cs with
  | nil => intro r hr; cases hr
  | cons x rest ih =>
    unfold scanRows at h
    cases hp : amountFromString x.amt with
    | none => rw [hp] at h; cases h
    | some a =>
      rw [hp] at h
      cases hs : scanRows rest with
      | error e => rw [hs] at h; cases h
      | ok cs' =>
        rw [hs] at h
        cases h
        intro r hr
        rcases List.mem_cons.mp hr with rfl | hr'
        · exact ⟨a, hp, List.mem_cons_self _ _⟩
        · obtain ⟨b, hb1, hb2⟩ := ih hs r hr'
          exact ⟨b, hb1, List.mem_cons_of_mem _ hb2⟩

theorem scanRows_mem_rev {rows : List Row} {cs : List UploadableCredit}
    (h : scanRows rows = .ok cs) :
    ∀ c ∈ cs, ∃ r ∈ rows, ∃ a, amountFromString r.amt = some a ∧ c = toCredit r a := by
  induction rows generalizing cs with
  | nil => cases h; intro c hc; cases hc
  | cons x rest ih =>
    unfold scanRows at h
    cases hp : amountFromString x.amt with
    | none => rw [hp] at h; cases h
    | some a =>
      rw [hp] at h
      cases hs : scanRows rest with
      | error e => rw [hs] at h; cases h
      | ok cs' =>
        rw [hs] at h
        cases h
        intro c hc
        rcases List.mem_cons.mp hc with rfl | hc'
        · exact ⟨x, List.mem_cons_self _ _, a, hp, rfl⟩
        · obtain ⟨r, hr, b, hb1, hb2⟩ := ih hs c hc'
          exact ⟨r, List.mem_cons_of_mem _ hr, b, hb1, hb2⟩

theorem scanRows_error_of_bad {rows : List Row}
    (h : ∃ r ∈ rows, amountFromString r.amt = none) :
    ∃ e, scanRows rows = .error e := by
  induction rows with
  | nil => obtain ⟨r, hr, _⟩ := h; cases hr
  | cons x rest ih =>
    obtain ⟨r, hr, hbad⟩ := h
    rcases List.mem_cons.mp hr with rfl | hr'
    · exact ⟨_, by unfold scanRows; rw [hbad]⟩
    · cases hp : amountFromString x.amt with
      | none => exact ⟨_, by unfold scanRows; rw [hp]⟩
      | some a =>
        obtain ⟨e, he⟩ := ih ⟨r, hr', hbad⟩
        exact ⟨e, by unfold scanRows; rw [hp, he]⟩

theorem scanRows_ok_of_parse {rows : List Row}
    (h : ∀ r ∈ rows, (amountFromString r.amt).isSome) :
    ∃ cs, scanRows rows = .ok cs := by
  induction rows with
  | nil => exact ⟨[], rfl⟩
  | cons x rest ih =>
    obtain ⟨a, ha⟩ := Option.isSome_iff_exists.mp (h x (List.mem_cons_self _ _))
    obtain ⟨cs, hcs⟩ := ih (fun r hr => h r (List.mem_cons_of_mem _ hr))
    exact ⟨toCredit x a :: cs, by unfold scanRows; rw [ha, hcs]⟩

theorem next_ok_elim {db : List Row} {cur : Cursor} {batch : List UploadableCredit}
    {cur' : Cursor} (h : Cursor.next db cur = .ok (batch, cur')) :
    scanRows (queryRows db cur) = .ok batch ∧
    cur' = { cur with newerThan := advanceWatermark cur.newerThan (queryRows db cur) } := by
  unfold Cursor.next at h
  cases hs : scanRows (queryRows db cur) with
  | error e => rw [hs] at h; cases h
  | ok cs => rw [hs] at h; cases h; exact ⟨rfl, rfl⟩

theorem next_ok_mem_gt {db : List Row} {cur : Cursor} {batch : List UploadableCredit}
    {cur' : Cursor} (h : Cursor.next db cur = .ok (batch, cur')) :
    ∀ c ∈ batch, cur.newerThan < c.createdAt := by
  intro c hc
  obtain ⟨hscan, _⟩ := next_ok_elim h
  obtain ⟨r, hr, a, _, rfl⟩ := scanRows_mem_rev hscan c hc
  have := (mem_queryRows hr).2
  simp only [eligibleRow, Bool.and_eq_true, decide_eq_true_eq] at this
  exact this.2

theorem next_ok_le_wm {db : List Row} {cur : Cursor} {batch : List UploadableCredit}
    {cur' : Cursor} (h : Cursor.next db cur = .ok (batch, cur')) :
    ∀ c ∈ batch, c.createdAt ≤ cur'.newerThan := by
  intro c hc
  obtain ⟨hscan, hcur⟩ := next_ok_elim h
  obtain ⟨r, hr, a, _, rfl⟩ := scanRows_mem_rev hscan c hc
  rw [hcur]
  exact advanceWatermark_ge cur.newerThan r hr

theorem next_ok_wm_le {db : List Row} {cur : Cursor} {batch : List UploadableCredit}
    {cur' : Cursor} (h : Cursor.next db cur = .ok (batch, cur')) :
    cur.newerThan ≤ cur'.newerThan := by
  obtain ⟨_, hcur⟩ := next_ok_elim h
  rw [hcur]
  exact le_advanceWatermark _ _

/-- The concrete three-credit table of the spec's cursor scenario
(creation timestamps 1 < 2 < 3). -/
def row1 : Row :=
  { depositoryID := "d1", userID := "u", amt := "0.23", fileID := "", createdAt := 1,
    mergedFilename := none, deletedAt := none }

def row2 : Row :=
  { depositoryID := "d2", userID := "u", amt := "0.34", fileID := "", createdAt := 2,
    mergedFilename := none, deletedAt := none }

def row3 : Row :=
  { depositoryID := "d3", userID := "u", amt := "0.45", fileID := "", createdAt := 3,
    mergedFilename := none, deletedAt := none }

def db3 : List Row := [row1, row2, row3]

def credit1 : UploadableCredit :=
  { depositoryID := "d1", userID := "u", amount := (0, 23), fileID := "", createdAt := 1 }

def credit2 : UploadableCredit :=
  { depositoryID := "d2", userID := "u", amount := (0, 34), fileID := "", createdAt := 2 }

def credit3 : UploadableCredit :=
  { depositoryID := "d3", userID := "u", amount := (0, 45), fileID := "", createdAt := 3 }

/-- C7: each `Next()` call returns at most `BatchSize` credits, all strictly newer
than the current watermark, in ascending creation-timestamp order; afterwards the
watermark equals the maximum creation timestamp observed in the batch, or the
cursor is unchanged when the batch is empty.  Concretely, with credits at
timestamps 1 < 2 < 3 and batch size 2, the three calls return [t1, t2], [t3] and
[] with watermarks 2, 3, 3. -/
theorem claim_C7 :
    (∀ db cur batch cur', Cursor.next db cur = .ok (batch, cur') →
      batch.length ≤ cur.batchSize ∧
      (∀ c ∈ batch, cur.newerThan < c.createdAt) ∧
      (batch.map UploadableCredit.createdAt).Pairwise (· ≤ ·) ∧
      (batch = [] → cur' = cur) ∧
      (batch ≠ [] → cur'.newerThan ∈ batch.map UploadableCredit.createdAt ∧
        ∀ c ∈ batch, c.createdAt ≤ cur'.newerThan)) ∧
    runNext db3 3 (getCursor 2 0) =
      ([[credit1, credit2], [credit3], []], { batchSize := 2, newerThan := 3 }) := by
  constructor
  · intro db cur batch cur' h
    obtain ⟨hscan, hcur⟩ := next_ok_elim h
    have hmap := scanRows_map_createdAt hscan
    refine ⟨?_, next_ok_mem_gt h, ?_, ?_, ?_⟩
    · have : batch.length = (queryRows db cur).length := by
        have := congrArg List.length hmap
        simpa using this
      rw [this]
      exact length_queryRows db cur
    · rw [hmap]
      exact List.pairwise_map.mpr (sorted_queryRows db cur)
    · intro hb
      subst hb
      have hrows : queryRows db cur = [] := by
        have := hmap.symm
        simpa using this
      rw [hcur, hrows]
      rfl
    · intro hb
      refine ⟨?_, next_ok_le_wm h⟩
      have hrows : queryRows db cur ≠ [] := by
        intro hr
        rw [hr] at hmap
        simp at hmap
        exact hb hmap
      rcases advanceWatermark_eq_or_mem (queryRows db cur) cur.newerThan with heq | ⟨r, hr, heq⟩
      · exfalso
        obtain ⟨r₀, hr₀⟩ := List.exists_mem_of_ne_nil _ hrows
        have h1 : cur.newerThan < r₀.createdAt := by
          have := (mem_queryRows hr₀).2
          simp only [eligibleRow, Bool.and_eq_true, decide_eq_true_eq] at this
          exact this.2
        have h2 : r₀.createdAt ≤ advanceWatermark cur.newerThan (queryRows db cur) :=
          advanceWatermark_ge cur.newerThan r₀ hr₀
        omega
      · rw [hcur, hmap]
        simp only
        rw [heq]
        exact List.mem_map_of_mem Row.createdAt hr
  · rfl

/-- Closed instance of C7 at the concrete three-credit table: batch bounds,
eligibility, ordering, and watermark advance hold for the first call. -/
theorem claim_C7_witness :
    [credit1, credit2].length ≤ (getCursor 2 0).batchSize ∧
    (∀ c ∈ [credit1, credit2], (getCursor 2 0).newerThan < c.createdAt) ∧
    ([credit1, credit2].map UploadableCredit.createdAt).Pairwise (· ≤ ·) ∧
    ([credit1, credit2] = [] → ({ batchSize := 2, newerThan := 2 } : Cursor) = getCursor 2 0) ∧
    ([credit1, credit2] ≠ [] →
      (2 : Nat) ∈ [credit1, credit2].map UploadableCredit.createdAt ∧
      ∀ c ∈ [credit1, credit2],
        c.createdAt ≤ ({ batchSize := 2, newerThan := 2 } : Cursor).newerThan) :=
  claim_C7.1 db3 (getCursor 2 0) [credit1, credit2] { batchSize := 2, newerThan := 2 } rfl

/-- C9: if any row read by `Next()` carries an amount string that fails
fixed-point parsing, `Next()` returns an error for the whole extraction, with no
batch of remaining credits. -/
theorem claim_C9 (db : List Row) (cur : Cursor)
    (h : ∃ r ∈ queryRows db cur, amountFromString r.amt = none) :
    ∃ e, Cursor.next db cur = .error e := by
  obtain ⟨e, he⟩ := scanRows_error_of_bad h
  exact ⟨e, by unfold Cursor.next; rw [he]⟩

/-! ### Cursor exclusivity and no-skip (C2) -/

theorem runNext_mem_gt (db : List Row) :
    ∀ (n : Nat) (cur : Cursor), ∀ b ∈ (runNext db n cur).1,
      ∀ c ∈ b, cur.newerThan < c.createdAt := by
  intro n
  induction n with
  | zero => intro cur b hb; cases hb
  | succ n ih =>
    intro cur b hb
    cases hnext : Cursor.next db cur with
    | error e => simp only [runNext, hnext] at hb; cases hb
    | ok p =>
      obtain ⟨batch, cur'⟩ := p
      simp only [runNext, hnext] at hb
      rcases List.mem_cons.mp hb with rfl | hb'
      · exact next_ok_mem_gt hnext
      · intro c hc
        have h1 := ih cur' b hb' c hc
        have h2 := next_ok_wm_le hnext
        omega

/-- If a row of the eligible window is within the window but not taken into the
batch, then — provided eligible creation timestamps are pairwise distinct — it is
still eligible against the advanced watermark. -/
theorem still_eligible_of_not_taken {db : List Row} {cur : Cursor} {r : Row}
    (hd : (db.filter (eligibleRow cur.newerThan)).Pairwise
      (fun a b => a.createdAt ≠ b.createdAt))
    (hmem : r ∈ db.filter (eligibleRow cur.newerThan))
    (hnot : r ∉ queryRows db cur) :
    eligibleRow (advanceWatermark cur.newerThan (queryRows db cur)) r = true := by
  have helig : eligibleRow cur.newerThan r = true := (List.mem_filter.mp hmem).2
  have hgt : advanceWatermark cur.newerThan (queryRows db cur) < r.createdAt := by
    rcases advanceWatermark_eq_or_mem (queryRows db cur) cur.newerThan with heq | ⟨r₀, hr₀, heq⟩
    · rw [heq]
      have := helig
      simp only [eligibleRow, Bool.and_eq_true, decide_eq_true_eq] at this
      exact this.2
    · rw [heq]
      -- r is in the sorted eligible list but beyond the taken window
      have hs : r ∈ List.insertionSort rowLE (db.filter (eligibleRow cur.newerThan)) :=
        (List.mem_insertionSort rowLE).mpr hmem
      have hsplit := List.take_append_drop cur.batchSize
        (List.insertionSort rowLE (db.filter (eligibleRow cur.newerThan)))
      have hdrop : r ∈ (List.insertionSort rowLE
          (db.filter (eligibleRow cur.newerThan))).drop cur.batchSize := by
        rcases List.mem_append.mp (hsplit ▸ hs) with h | h
        · exact absurd h hnot
        · exact h
      have hsorted := List.sorted_insertionSort rowLE (db.filter (eligibleRow cur.newerThan))
      have hboth : List.Pairwise rowLE
          ((List.insertionSort rowLE (db.filter (eligibleRow cur.newerThan))).take
              cur.batchSize ++
            (List.insertionSort rowLE (db.filter (eligibleRow cur.newerThan))).drop
              cur.batchSize) := by
        rw [hsplit]; exact hsorted
      have hle : r₀.createdAt ≤ r.createdAt :=
        (List.pairwise_append.mp hboth).2.2 r₀ hr₀ r hdrop
      have hnes : List.Pairwise (fun a b => a.createdAt ≠ b.createdAt)
          (List.insertionSort rowLE (db.filter (eligibleRow cur.newerThan))) :=
        ((List.perm_insertionSort rowLE _).pairwise_iff (fun h => h.symm)).mpr hd
      have hboth' : List.Pairwise (fun a b : Row => a.createdAt ≠ b.createdAt)
          ((List.insertionSort rowLE (db.filter (eligibleRow cur.newerThan))).take
              cur.batchSize ++
            (List.insertionSort rowLE (db.filter (eligibleRow cur.newerThan))).drop
              cur.batchSize) := by
        rw [hsplit]; exact hnes
      have hne : r₀.createdAt ≠ r.createdAt :=
        (List.pairwise_append.mp hboth').2.2 r₀ hr₀ r hdrop
      omega
  simp only [eligibleRow, Bool.and_eq_true, decide_eq_true_eq] at helig ⊢
  exact ⟨⟨helig.1.1, helig.1.2⟩, hgt⟩

/-- Narrowing the window: filtering by the advanced watermark refines the
current eligible list. -/
theorem filter_advance (db : List Row) (cur : Cursor) {wm' : Nat}
    (hle : cur.newerThan ≤ wm') :
    db.filter (eligibleRow wm') = (db.filter (eligibleRow cur.newerThan)).filter
      (eligibleRow wm') := by
  rw [List.filter_filter]
  refine (List.filter_congr ?_).symm
  intro x _
  cases hx : eligibleRow wm' x with
  | false => rfl
  | true =>
    have hx' : eligibleRow cur.newerThan x = true := by
      simp only [eligibleRow, Bool.and_eq_true, decide_eq_true_eq] at hx ⊢
      exact ⟨hx.1, by omega⟩
    rw [hx']
    rfl

theorem batch_not_eligible {db : List Row} {cur : Cursor} {r : Row}
    (hr : r ∈ queryRows db cur) :
    eligibleRow (advanceWatermark cur.newerThan (queryRows db cur)) r = false := by
  have hle := advanceWatermark_ge cur.newerThan r hr
  simp only [eligibleRow, Bool.and_eq_false_iff, decide_eq_false_iff_not]
  right
  omega

theorem noskip_aux (db : List Row) :
    ∀ (n : Nat) (cur : Cursor),
      1 ≤ cur.batchSize →
      (db.filter (eligibleRow cur.newerThan)).Pairwise
        (fun a b => a.createdAt ≠ b.createdAt) →
      (∀ r ∈ db.filter (eligibleRow cur.newerThan), (amountFromString r.amt).isSome) →
      (db.filter (eligibleRow cur.newerThan)).length ≤ n →
      ∀ r ∈ db.filter (eligibleRow cur.newerThan),
        ∃ a, amountFromString r.amt = some a ∧
          ∃ b ∈ (runNext db n cur).1, toCredit r a ∈ b := by
  intro n
  induction n with
  | zero =>
    intro cur _ _ _ hlen r hr
    rw [List.length_eq_zero.mp (Nat.le_zero.mp hlen)] at hr
    cases hr
  | succ n ih =>
    intro cur hB hd hp hlen r hr
    have hparse : ∀ q ∈ queryRows db cur, (amountFromString q.amt).isSome := by
      intro q hq
      obtain ⟨hq1, hq2⟩ := mem_queryRows hq
      exact hp q (List.mem_filter.mpr ⟨hq1, hq2⟩)
    obtain ⟨cs, hcs⟩ := scanRows_ok_of_parse hparse
    have hnext : Cursor.next db cur =
        .ok (cs, { cur with newerThan := advanceWatermark cur.newerThan (queryRows db cur) }) := by
      unfold Cursor.next
      rw [hcs]
    have hrun : (runNext db (n + 1) cur).1 =
        cs :: (runNext db n
          { cur with newerThan := advanceWatermark cur.newerThan (queryRows db cur) }).1 := by
      simp [runNext, hnext]
    by_cases hin : r ∈ queryRows db cur
    · obtain ⟨a, hpa, hmem⟩ := scanRows_mem hcs r hin
      exact ⟨a, hpa, cs, by rw [hrun]; exact List.mem_cons_self _ _, hmem⟩
    · -- r stays eligible for the advanced cursor; recurse
      set cur' : Cursor :=
        { cur with newerThan := advanceWatermark cur.newerThan (queryRows db cur) } with hcur'
      have hwmle : cur.newerThan ≤ cur'.newerThan := le_advanceWatermark _ _
      have hfilter : db.filter (eligibleRow cur'.newerThan) =
          (db.filter (eligibleRow cur.newerThan)).filter (eligibleRow cur'.newerThan) :=
        filter_advance db cur hwmle
      have hrmem' : r ∈ db.filter (eligibleRow cur'.newerThan) := by
        rw [hfilter]
        exact List.mem_filter.mpr ⟨hr, still_eligible_of_not_taken hd hr hin⟩
      have hd' : (db.filter (eligibleRow cur'.newerThan)).Pairwise
          (fun a b => a.createdAt ≠ b.createdAt) := by
        rw [hfilter]
        exact List.Pairwise.sublist (List.filter_sublist _) hd
      have hp' : ∀ q ∈ db.filter (eligibleRow cur'.newerThan),
          (amountFromString q.amt).isSome := by
        intro q hq
        rw [hfilter] at hq
        exact hp q ((List.filter_sublist _).subset hq)
      have hlen' : (db.filter (eligibleRow cur'.newerThan)).length ≤ n := by
        have hnonempty : queryRows db cur ≠ [] := by
          intro hq
          have hsortlen : (List.insertionSort rowLE
              (db.filter (eligibleRow cur.newerThan))).length =
              (db.filter (eligibleRow cur.newerThan)).length :=
            (List.perm_insertionSort rowLE _).length_eq
          have hpos : 0 < (db.filter (eligibleRow cur.newerThan)).length :=
            List.length_pos.mpr (by intro hnil; rw [hnil] at hr; cases hr)
          have : (queryRows db cur).length = 0 := by rw [hq]; rfl
          unfold queryRows at this
          rw [List.length_take] at this
          omega
        obtain ⟨r₀, hr₀⟩ := List.exists_mem_of_ne_nil _ hnonempty
        have hr₀E : r₀ ∈ db.filter (eligibleRow cur.newerThan) := by
          obtain ⟨h1, h2⟩ := mem_queryRows hr₀
          exact List.mem_filter.mpr ⟨h1, h2⟩
        have hstrict : (db.filter (eligibleRow cur'.newerThan)).length <
            (db.filter (eligibleRow cur.newerThan)).length := by
          rw [hfilter]
          exact List.length_filter_lt_length_iff_exists.mpr
            ⟨r₀, hr₀E, by rw [batch_not_eligible hr₀]; exact Bool.false_ne_true⟩
        omega
      obtain ⟨a, hpa, b, hb, hmb⟩ := ih cur' hB hd' hp' hlen' r hrmem'
      exact ⟨a, hpa, b, by rw [hrun]; exact List.mem_cons_of_mem _ hb, hmb⟩

/-- C2 (amended): across sequential `Next()` calls of one cursor, no credit is
ever returned twice (batches are pairwise disjoint, unconditionally); and when
the eligible rows have pairwise-distinct creation timestamps, a positive batch
size, and parseable amounts, every eligible credit is returned by some call once
at least as many calls are made as there are eligible rows.  (The original claim
also demanded this for equal timestamps across a batch boundary; that case is
refuted separately.) -/
theorem claim_C2 :
    (∀ (db : List Row) (n : Nat) (cur : Cursor),
      ((runNext db n cur).1).Pairwise (fun b₁ b₂ => ∀ c ∈ b₁, c ∉ b₂)) ∧
    (∀ (db : List Row) (n : Nat) (cur : Cursor),
      1 ≤ cur.batchSize →
      (db.filter (eligibleRow cur.newerThan)).Pairwise
        (fun a b => a.createdAt ≠ b.createdAt) →
      (∀ r ∈ db.filter (eligibleRow cur.newerThan), (amountFromString r.amt).isSome) →
      (db.filter (eligibleRow cur.newerThan)).length ≤ n →
      ∀ r ∈ db.filter (eligibleRow cur.newerThan),
        ∃ a, amountFromString r.amt = some a ∧
          ∃ b ∈ (runNext db n cur).1, toCredit r a ∈ b) := by
  constructor
  · intro db n
    induction n with
    | zero => intro cur; exact List.Pairwise.nil
    | succ n ih =>
      intro cur
      cases hnext : Cursor.next db cur with
      | error e => simp only [runNext, hnext]; exact List.Pairwise.nil
      | ok p =>
        obtain ⟨batch, cur'⟩ := p
        simp only [runNext, hnext]
        refine List.pairwise_cons.mpr ⟨?_, ih cur'⟩
        intro b' hb' c hc hc'
        have h1 := runNext_mem_gt db n cur' b' hb' c hc'
        have h2 := next_ok_le_wm hnext c hc
        omega
  · exact fun db n cur => noskip_aux db n cur

/-- Closed instance of C2's no-skip half: in the three-credit table with
distinct timestamps, the first credit is indeed returned by one of three calls. -/
theorem claim_C2_witness :
    ∃ a, amountFromString row1.amt = some a ∧
      ∃ b ∈ (runNext db3 3 (getCursor 2 0)).1, toCredit row1 a ∈ b :=
  claim_C2.2 db3 3 (getCursor 2 0) (by decide) (by decide) (by decide) (by decide)
    row1 (by decide)

/-- The tie table: three otherwise-distinct credits sharing creation timestamp 1,
read with batch size 2 — the tie falls across the batch boundary. -/
def rowTie1 : Row :=
  { depositoryID := "d1", userID := "u", amt := "0.11", fileID := "", createdAt := 1,
    mergedFilename := none, deletedAt := none }

def rowTie2 : Row :=
  { depositoryID := "d2", userID := "u", amt := "0.22", fileID := "", createdAt := 1,
    mergedFilename := none, deletedAt := none }

def rowTie3 : Row :=
  { depositoryID := "d3", userID := "u", amt := "0.33", fileID := "", createdAt := 1,
    mergedFilename := none, deletedAt := none }

def dbTie : List Row := [rowTie1, rowTie2, rowTie3]

theorem runNext_all_nil {db : List Row} {cur : Cursor}
    (hfix : Cursor.next db cur = .ok ([], cur)) :
    ∀ n, ∀ b ∈ (runNext db n cur).1, b = ([] : List UploadableCredit) := by
  intro n
  induction n with
  | zero => intro b hb; cases hb
  | succ n ih =>
    intro b hb
    simp only [runNext, hfix] at hb
    rcases List.mem_cons.mp hb with rfl | hb'
    · rfl
    · exact ih b hb'

/-- C2 refuted as stated: with equal creation timestamps falling across a
batch-size boundary, an eligible credit is never returned by any number of
sequential `Next()` calls.  Here the third tied credit is eligible yet no call
ever returns it, because the strict watermark advances past its timestamp. -/
theorem claim_C2_counterexample :
    rowTie3 ∈ dbTie ∧ eligibleRow (getCursor 2 0).newerThan rowTie3 = true ∧
    ∀ n, ∀ b ∈ (runNext dbTie n (getCursor 2 0)).1, toCredit rowTie3 (0, 33) ∉ b := by
  refine ⟨by decide, by decide, ?_⟩
  have hfirst : Cursor.next dbTie (getCursor 2 0) =
      .ok ([toCredit rowTie1 (0, 11), toCredit rowTie2 (0, 22)],
        { batchSize := 2, newerThan := 1 }) := rfl
  have hfix : Cursor.next dbTie { batchSize := 2, newerThan := 1 } =
      .ok ([], { batchSize := 2, newerThan := 1 }) := rfl
  intro n
  cases n with
  | zero => intro b hb; cases hb
  | succ n =>
    intro b hb
    simp only [runNext, hfirst] at hb
    rcases List.mem_cons.mp hb with rfl | hb'
    · decide
    · rw [runNext_all_nil hfix n b hb']
      exact List.not_mem_nil _

/-- The bad-amount table: one eligible row whose amount string is malformed. -/
def dbBadAmount : List Row :=
  [ { depositoryID := "d1", userID := "u", amt := "garbage", fileID := "", createdAt := 1,
      mergedFilename := none, deletedAt := none } ]

/-- Closed instance of C9: a malformed amount in the extraction window makes
`Next()` fail. -/
theorem claim_C9_witness : ∃ e, Cursor.next dbBadAmount (getCursor 2 0) = .error e :=
  claim_C9 dbBadAmount (getCursor 2 0)
    ⟨{ depositoryID := "d1", userID := "u", amt := "garbage", fileID := "", createdAt := 1,
       mergedFilename := none, deletedAt := none }, by decide, by decide⟩

/-! ### Transfer requests (transfers.go) -/

/-- The `transferRequest` of transfers.go (public JSON fields; the internal
fileID/transactionID fields are attached during processing and are not needed
for the properties proved here). -/
structure TransferRequest where
  transferType : String
  amount : String
  originator : String
  originatorDepository : String
  receiver : String
  receiverDepository : String
  description : String
  standardEntryClassCode : String
  sameDay : Bool
  ccdDetail : Option String
  iatDetail : Option String
  telDetail : Option String
  webDetail : Option String
deriving DecidableEq

/-- The `missing` list accumulated by `transferRequest.missingFields`, in the
order the Go code checks the fields. -/
def missingFieldList (r : TransferRequest) : List String :=
  (if r.transferType = "" then ["transferType"] else []) ++
  (if r.originator = "" then ["originator"] else []) ++
  (if r.originatorDepository = "" then ["originatorDepository"] else []) ++
  (if r.receiver = "" then ["receiver"] else []) ++
  (if r.receiverDepository = "" then ["receiverDepository"] else []) ++
  (if r.standardEntryClassCode = "" then ["standardEntryClassCode"] else [])

/-- The error of `transferRequest.missingFields`: a single error naming every missing
required field, or nothing when all are present. -/
def missingFields (r : TransferRequest) : Option String :=
  if missingFieldList r = [] then none
  else some ("missing " ++ String.intercalate ", " (missingFieldList r) ++ " JSON field(s)")

/-- Transfer status from internal/model (`TransferPending` is the one assigned
at creation; the terminal states come from settlement feedback). -/
inductive TransferStatus
  | pending
  | completed
  | failed
deriving DecidableEq

/-- The `model.Transfer` record with the fields set by `transferRequest.asTransfer`. -/
structure Transfer where
  id : String
  transferType : String
  amount : String
  originator : String
  originatorDepository : String
  receiver : String
  receiverDepository : String
  description : String
  standardEntryClassCode : String
  status : TransferStatus
  sameDay : Bool
  userID : String
  ccdDetail : Option String
  iatDetail : Option String
  telDetail : Option String
  webDetail : Option String
deriving DecidableEq

/-- The `transferRequest.asTransfer` conversion: copies the request fields, sets status
`Pending`, and copies along exactly the detail sub-object selected by the
standard-entry-class code. -/
def asTransfer (r : TransferRequest) (userID : String) (transferID : String) : Transfer :=
  { id := transferID
    transferType := r.transferType
    amount := r.amount
    originator := r.originator
    originatorDepository := r.originatorDepository
    receiver := r.receiver
    receiverDepository := r.receiverDepository
    description := r.description
    standardEntryClassCode := r.standardEntryClassCode
    status := .pending
    sameDay := r.sameDay
    userID := userID
    ccdDetail := if r.standardEntryClassCode = "CCD" then r.ccdDetail else none
    iatDetail := if r.standardEntryClassCode = "IAT" then r.iatDetail else none
    telDetail := if r.standardEntryClassCode = "TEL" then r.telDetail else none
    webDetail := if r.standardEntryClassCode = "WEB" then r.webDetail else none }

theorem mem_ite_name {c : Prop} [inst : Decidable c] {x y : String}
    (h : x ∈ (if c then [y] else ([] : List String))) : x = y ∧ c := by
  by_cases hc : c
  · rw [if_pos hc] at h
    exact ⟨List.mem_singleton.mp h, hc⟩
  · rw [if_neg hc] at h
    cases h

theorem mem_ite_name_self {c : Prop} [inst : Decidable c] {y : String} (hc : c) :
    y ∈ (if c then [y] else ([] : List String)) := by
  rw [if_pos hc]
  exact List.mem_singleton_self y

theorem ite_name_eq_nil {c : Prop} [inst : Decidable c] {y : String} :
    ((if c then [y] else ([] : List String)) = []) ↔ ¬c := by
  split <;> simp_all

/-- Membership in the accumulated missing-field list corresponds exactly to
emptiness of the matching required field. -/
theorem mem_missingFieldList (r : TransferRequest) (x : String) :
    x ∈ missingFieldList r ↔
      (x = "transferType" ∧ r.transferType = "") ∨
      (x = "originator" ∧ r.originator = "") ∨
      (x = "originatorDepository" ∧ r.originatorDepository = "") ∨
      (x = "receiver" ∧ r.receiver = "") ∨
      (x = "receiverDepository" ∧ r.receiverDepository = "") ∨
      (x = "standardEntryClassCode" ∧ r.standardEntryClassCode = "") := by
  unfold missingFieldList
  simp only [List.mem_append]
  constructor
  · intro h
    rcases h with ((((h | h) | h) | h) | h) | h
    · exact Or.inl ⟨(mem_ite_name h).1, (mem_ite_name h).2⟩
    · exact Or.inr (Or.inl ⟨(mem_ite_name h).1, (mem_ite_name h).2⟩)
    · exact Or.inr (Or.inr (Or.inl ⟨(mem_ite_name h).1, (mem_ite_name h).2⟩))
    · exact Or.inr (Or.inr (Or.inr (Or.inl ⟨(mem_ite_name h).1, (mem_ite_name h).2⟩)))
    · exact Or.inr (Or.inr (Or.inr (Or.inr
        (Or.inl ⟨(mem_ite_name h).1, (mem_ite_name h).2⟩))))
    · exact Or.inr (Or.inr (Or.inr (Or.inr
        (Or.inr ⟨(mem_ite_name h).1, (mem_ite_name h).2⟩))))
  · intro h
    rcases h with ⟨rfl, hc⟩ | ⟨rfl, hc⟩ | ⟨rfl, hc⟩ | ⟨rfl, hc⟩ | ⟨rfl, hc⟩ | ⟨rfl, hc⟩
    · exact Or.inl (Or.inl (Or.inl (Or.inl (Or.inl (mem_ite_name_self hc)))))
    · exact Or.inl (Or.inl (Or.inl (Or.inl (Or.inr (mem_ite_name_self hc)))))
    · exact Or.inl (Or.inl (Or.inl (Or.inr (mem_ite_name_self hc))))
    · exact Or.inl (Or.inl (Or.inr (mem_ite_name_self hc)))
    · exact Or.inl (Or.inr (mem_ite_name_self hc))
    · exact Or.inr (mem_ite_name_self hc)

theorem missingFields_eq_none (r : TransferRequest) :
    missingFields r = none ↔ missingFieldList r = [] := by
  unfold missingFields
  split <;> simp_all

/-- C8: a request missing one or more required fields fails validation with a
single error naming every missing field (membership in the reported list is
exactly emptiness of the corresponding field), not only the first one. -/
theorem claim_C8 (r : TransferRequest) :
    (missingFields r = none ↔
      r.transferType ≠ "" ∧ r.originator ≠ "" ∧ r.originatorDepository ≠ "" ∧
      r.receiver ≠ "" ∧ r.receiverDepository ≠ "" ∧ r.standardEntryClassCode ≠ "") ∧
    ("transferType" ∈ missingFieldList r ↔ r.transferType = "") ∧
    ("originator" ∈ missingFieldList r ↔ r.originator = "") ∧
    ("originatorDepository" ∈ missingFieldList r ↔ r.originatorDepository = "") ∧
    ("receiver" ∈ missingFieldList r ↔ r.receiver = "") ∧
    ("receiverDepository" ∈ missingFieldList r ↔ r.receiverDepository = "") ∧
    ("standardEntryClassCode" ∈ missingFieldList r ↔ r.standardEntryClassCode = "") ∧
    (missingFieldList r ≠ [] →
      missingFields r =
        some ("missing " ++ String.intercalate ", " (missingFieldList r) ++
          " JSON field(s)")) := by
  refine ⟨?_, ?_, ?_, ?_, ?_, ?_, ?_, ?_⟩
  · rw [missingFields_eq_none]
    unfold missingFieldList
    simp only [List.append_eq_nil, ite_name_eq_nil]
    tauto
  · rw [mem_missingFieldList]; simp
  · rw [mem_missingFieldList]; simp
  · rw [mem_missingFieldList]; simp
  · rw [mem_missingFieldList]; simp
  · rw [mem_missingFieldList]; simp
  · rw [mem_missingFieldList]; simp
  · intro h
    unfold missingFields
    rw [if_neg h]

/-- Closed instance of C8: a request missing both depositories reports both
fields in one error. -/
theorem claim_C8_witness :
    let r : TransferRequest :=
      { transferType := "push", amount := "USD 1.00", originator := "orig",
        originatorDepository := "", receiver := "rcv", receiverDepository := "",
        description := "", standardEntryClassCode := "PPD", sameDay := false,
        ccdDetail := none, iatDetail := none, telDetail := none, webDetail := none }
    ("originatorDepository" ∈ missingFieldList r ∧ "receiverDepository" ∈ missingFieldList r) ∧
    missingFields r =
      some ("missing " ++ String.intercalate ", " (missingFieldList r) ++
        " JSON field(s)") := by
  refine ⟨⟨?_, ?_⟩, ?_⟩
  · exact ((claim_C8 _).2.2.2.1).mpr rfl
  · exact ((claim_C8 _).2.2.2.2.2.1).mpr rfl
  · exact (claim_C8 _).2.2.2.2.2.2.2 (by decide)

/-! ### Entities and repositories (collaborator contracts of section 6) -/

/-- Depository status from internal/model; only `Verified` admits transfers. -/
inductive DepositoryStatus
  | unverified
  | verified
  | rejected
deriving DecidableEq

/-- Modelled from the spec: a Receiver entity exposing `Validate()`; its
validation outcome is carried as data since internal/model is not in the tree. -/
structure Receiver where
  id : String
  validateErr : Option String
deriving DecidableEq

/-- Modelled from the spec: an Originator entity exposing `Validate()`. -/
structure Originator where
  id : String
  validateErr : Option String
deriving DecidableEq

/-- Modelled from the spec: a Depository entity with a status and `Validate()`. -/
structure Depository where
  id : String
  status : DepositoryStatus
  validateErr : Option String
deriving DecidableEq

/-- Association-list lookup keyed by (entity ID, user ID) — the repositories'
`GetUserX(id, userID)` contract. -/
def findBy {α : Type} (k : String × String) :
    List ((String × String) × α) → Option α
  | [] => none
  | (k', v) :: rest => if k = k' then some v else findBy k rest

/-- The collaborator environment of one `createUserTransfers` call: repositories,
the limit checker's verdict, the optional Accounts and Customers clients, the
ACH client's outcomes, the event repository, the transfer repository's persist
outcome, and the idempotency store. -/
structure Env where
  receivers : List ((String × String) × Receiver)
  originators : List ((String × String) × Originator)
  depositories : List ((String × String) × Depository)
  limitErr : Option String
  accounts : Option (Option String × String)
  customers : Option (Option String × Option String)
  constructFileErr : Option String
  createFile : Except String String
  checkFileErr : Option String
  writeEventErr : Option String
  persistErr : Option String
  seenKeys : List String

/-- The `getTransferObjects` helper of transfers.go: resolve Receiver, Receiver
Depository, Originator and Originator Depository in that order, checking
`Validate()` on each and `Verified` status on both depositories; the first
failure returns four nils and an error. -/
def getTransferObjects (env : Env) (req : TransferRequest) (userID : String) :
    Option Receiver × Option Depository × Option Originator × Option Depository ×
      Option String :=
  match findBy (req.receiver, userID) env.receivers with
  | none => (none, none, none, none, some "receiver not found")
  | some receiver =>
    match receiver.validateErr with
    | some e => (none, none, none, none, some ("receiver: " ++ e))
    | none =>
      match findBy (req.receiverDepository, userID) env.depositories with
      | none => (none, none, none, none, some "receiver depository not found")
      | some receiverDep =>
        if receiverDep.status ≠ DepositoryStatus.verified then
          (none, none, none, none,
            some ("receiver depository " ++ receiverDep.id ++ " is in unusable status"))
        else
          match receiverDep.validateErr with
          | some e => (none, none, none, none, some ("receiver depository: " ++ e))
          | none =>
            match findBy (req.originator, userID) env.originators with
            | none => (none, none, none, none, some "originator not found")
            | some orig =>
              match orig.validateErr with
              | some e => (none, none, none, none, some ("originator: " ++ e))
              | none =>
                match findBy (req.originatorDepository, userID) env.depositories with
                | none => (none, none, none, none, some "originator Depository not found")
                | some origDep =>
                  if origDep.status ≠ DepositoryStatus.verified then
                    (none, none, none, none,
                      some ("originator Depository " ++ origDep.id ++
                        " is in unusable status"))
                  else
                    match origDep.validateErr with
                    | some e =>
                      (none, none, none, none, some ("originator depository: " ++ e))
                    | none => (some receiver, some receiverDep, some orig, some origDep, none)

/-- Case split for `getTransferObjects`: either an error with four nils, or a
full success with both depositories `Verified` and all validations passed. -/
theorem getTransferObjects_split (env : Env) (req : TransferRequest) (userID : String) :
    (∃ e, getTransferObjects env req userID = (none, none, none, none, some e)) ∨
    (∃ receiver receiverDep orig origDep,
      getTransferObjects env req userID =
        (some receiver, some receiverDep, some orig, some origDep, none) ∧
      receiverDep.status = DepositoryStatus.verified ∧
      origDep.status = DepositoryStatus.verified ∧
      receiver.validateErr = none ∧ orig.validateErr = none ∧
      receiverDep.validateErr = none ∧ origDep.validateErr = none) := by
  unfold getTransferObjects
  cases hr : findBy (req.receiver, userID) env.receivers with
  | none => exact Or.inl ⟨_, rfl⟩
  | some receiver =>
    dsimp only
    cases hrv : receiver.validateErr with
    | some e => exact Or.inl ⟨_, rfl⟩
    | none =>
      dsimp only
      cases hd : findBy (req.receiverDepository, userID) env.depositories with
      | none => exact Or.inl ⟨_, rfl⟩
      | some receiverDep =>
        dsimp only
        by_cases hds : receiverDep.status ≠ DepositoryStatus.verified
        · rw [if_pos hds]
          exact Or.inl ⟨_, rfl⟩
        · rw [if_neg hds]
          cases hdv : receiverDep.validateErr with
          | some e => exact Or.inl ⟨_, rfl⟩
          | none =>
            dsimp only
            cases ho : findBy (req.originator, userID) env.originators with
            | none => exact Or.inl ⟨_, rfl⟩
            | some orig =>
              dsimp only
              cases hov : orig.validateErr with
              | some e => exact Or.inl ⟨_, rfl⟩
              | none =>
                dsimp only
                cases hod : findBy (req.originatorDepository, userID) env.depositories with
                | none => exact Or.inl ⟨_, rfl⟩
                | some origDep =>
                  dsimp only
                  by_cases hods : origDep.status ≠ DepositoryStatus.verified
                  · rw [if_pos hods]
                    exact Or.inl ⟨_, rfl⟩
                  · rw [if_neg hods]
                    cases hodv : origDep.validateErr with
                    | some e => exact Or.inl ⟨_, rfl⟩
                    | none =>
                      refine Or.inr ⟨receiver, receiverDep, orig, origDep, rfl, ?_, ?_,
                        hrv, hov, hdv, hodv⟩
                      · exact not_not.mp hds
                      · exact not_not.mp hods

/-- C10: `getTransferObjects` is all-or-nothing — for every request and user it
returns either all four entities non-nil with a nil error (both depositories in
`Verified` status and both parties passing `Validate()`), or all four nil with a
non-nil error. -/
theorem claim_C10 (env : Env) (req : TransferRequest) (userID : String) :
    (∃ e, getTransferObjects env req userID = (none, none, none, none, some e)) ∨
    (∃ receiver receiverDep orig origDep,
      getTransferObjects env req userID =
        (some receiver, some receiverDep, some orig, some origDep, none) ∧
      receiverDep.status = DepositoryStatus.verified ∧
      origDep.status = DepositoryStatus.verified ∧
      receiver.validateErr = none ∧ orig.validateErr = none ∧
      receiverDep.validateErr = none ∧ origDep.validateErr = none) :=
  getTransferObjects_split env req userID

/-! ### The transfer-creation pipeline (createUserTransfers) -/

/-- Externally visible actions of the pipeline, in the order transfers.go
performs them for each request of a creation call. -/
inductive Event
  | entityLookup
  | limitCheck
  | ledgerPost
  | customerStatusCheck
  | disclaimerCheck
  | fileConstruct
  | fileUpload
  | fileCheck
  | auditEvent
  | persist
deriving DecidableEq

/-- Sequence two stages: the second runs only when the first succeeded; events
accumulate. -/
def stageSeq (s k : List Event × Option String) : List Event × Option String :=
  match s with
  | (evs, some e) => (evs, some e)
  | (evs, none) => (evs ++ k.1, k.2)

/-- The optional Accounts (ledger) client call of transfers.go. -/
def ledgerStage (env : Env) : List Event × Option String :=
  match env.accounts with
  | none => ([], none)
  | some (err, _) => ([.ledgerPost], err)

/-- The optional Customers client calls: status check then disclaimers. -/
def customersStage (env : Env) : List Event × Option String :=
  match env.customers with
  | none => ([], none)
  | some (some e, _) => ([.customerStatusCheck], some e)
  | some (none, de) => ([.customerStatusCheck, .disclaimerCheck], de)

/-- Stages `remoteach.ConstructFile`, `achClient.CreateFile`, `remoteach.CheckFile`. -/
def fileStage (env : Env) : List Event × Option String :=
  match env.constructFileErr with
  | some e => ([.fileConstruct], some e)
  | none =>
    match env.createFile with
    | .error e => ([.fileConstruct, .fileUpload], some e)
    | .ok _ =>
      match env.checkFileErr with
      | some e => ([.fileConstruct, .fileUpload, .fileCheck], some e)
      | none => ([.fileConstruct, .fileUpload, .fileCheck], none)

/-- Stage `writeTransferEvent` on the events repository. -/
def auditStage (env : Env) : List Event × Option String :=
  ([.auditEvent], env.writeEventErr)

/-- One iteration of the per-request loop in `createUserTransfers`: missing-field
check, entity resolution/validation, limit check, ledger post, customer checks,
settlement-file construction/upload/verification, audit event.  Returns the
trace of externally visible events and the error that stopped the request, if
any. -/
def processOne (env : Env) (userID : String) (req : TransferRequest) :
    List Event × Option String :=
  match missingFields req with
  | some e => ([], some e)
  | none =>
    match getTransferObjects env req userID with
    | (some _, some _, some _, some _, none) =>
      match env.limitErr with
      | some e => ([.entityLookup, .limitCheck], some e)
      | none =>
        stageSeq ([.entityLookup, .limitCheck], none)
          (stageSeq (ledgerStage env)
            (stageSeq (customersStage env) (stageSeq (fileStage env) (auditStage env))))
    | (_, _, _, _, e) =>
      ([.entityLookup], some ("missing data to create transfer: " ++ e.getD ""))

/-- The request loop of `createUserTransfers`: process requests sequentially,
stopping at the first failure. -/
def processAll (env : Env) (userID : String) :
    List TransferRequest → List Event × Option String
  | [] => ([], none)
  | req :: rest =>
    match processOne env userID req with
    | (evs, some e) => (evs, some e)
    | (evs, none) =>
      ((evs ++ (processAll env userID rest).1), (processAll env userID rest).2)

/-- The creation request body: either a single transfer object or an array of
transfer objects (`readTransferRequests` first tries to decode a single object,
then an array). -/
inductive CreateBody
  | single (req : TransferRequest)
  | arr (reqs : List TransferRequest)

/-- The `readTransferRequests` decoder of transfers.go: a single object is checked for
missing fields immediately; an array is accepted as-is (each element is checked
inside the loop); an empty result is an error. -/
def readTransferRequests (body : CreateBody) : Except String (List TransferRequest) :=
  match body with
  | .single req =>
    match missingFields req with
    | some e => .error e
    | none => .ok [req]
  | .arr [] => .error "no Transfer request objects found"
  | .arr reqs => .ok reqs

/-- The rendered response shape: a bare JSON object or a JSON array. -/
inductive Response
  | object (t : Transfer)
  | array (ts : List Transfer)
deriving DecidableEq

/-- The `writeResponse` renderer of transfers.go: when exactly one request was read the
single transfer is rendered without a surrounding array, otherwise the array is
rendered.  (The Go code indexes `transfers[0]`; its call site guarantees one
transfer per request.) -/
def writeResponse (reqCount : Nat) (transfers : List Transfer) : Response :=
  if reqCount = 1 then
    match transfers with
    | t :: _ => .object t
    | [] => .array []
  else .array transfers

/-- Outcome of one HTTP call. -/
inductive HandlerResult
  | preconditionFailed
  | problem (e : String)
  | ok (r : Response)
deriving DecidableEq

def HandlerResult.isArrayResponse : HandlerResult → Bool
  | .ok (.array _) => true
  | _ => false

def HandlerResult.isObjectResponse : HandlerResult → Bool
  | .ok (.object _) => true
  | _ => false

/-- Modelled from the spec: the Idempotency Recorder of the route package (only
its test is in the tree).  The first call for a key returns false and records
the key; every later call with that key returns true. -/
def SeenBefore (k : String) (store : List String) : Bool × List String :=
  if k ∈ store then (true, store) else (false, k :: store)

/-- The body of `createUserTransfers` after the responder admitted the request:
read the requests, run the loop, persist all transfers at once, render the
response mirroring the request count.  Returns the event trace, the HTTP
outcome, and the transfers persisted by this call. -/
def createCore (env : Env) (userID : String) (body : CreateBody) :
    List Event × HandlerResult × List Transfer :=
  match readTransferRequests body with
  | .error e => ([], .problem e, [])
  | .ok requests =>
    match processAll env userID requests with
    | (evs, some e) => (evs, .problem e, [])
    | (evs, none) =>
      match env.persistErr with
      | some e => (evs ++ [.persist], .problem e, [])
      | none =>
        (evs ++ [.persist],
          .ok (writeResponse requests.length
            (requests.map (fun r => asTransfer r userID ""))),
          requests.map (fun r => asTransfer r userID ""))

/-- The `createUserTransfers` handler including the responder's idempotency gate (modelled
from the spec, see `SeenBefore`): a duplicate idempotency key short-circuits
with a precondition-failed signal and no events at all. -/
def createUserTransfers (env : Env) (userID : String) (idemKey : Option String)
    (body : CreateBody) : List Event × HandlerResult × List Transfer :=
  match idemKey with
  | none => createCore env userID body
  | some k =>
    match SeenBefore k env.seenKeys with
    | (true, _) => ([], .preconditionFailed, [])
    | (false, _) => createCore env userID body

/-! ### Ordering of pipeline events -/

/-- Predicate `precedes a b tr`: every occurrence of `b` in the trace `tr` is preceded by
an earlier occurrence of `a` (equivalently, `b` does not occur before the first
`a`). -/
def precedes (a b : Event) (tr : List Event) : Prop :=
  b ∉ tr.takeWhile (fun e => decide (e ≠ a))

theorem precedes_nil (a b : Event) : precedes a b [] := by
  intro h
  cases h

theorem precedes_of_not_mem {a b : Event} {tr : List Event} (h : b ∉ tr) :
    precedes a b tr := by
  intro hmem
  exact h ((List.takeWhile_sublist _).subset hmem)

theorem precedes_append {a b : Event} {xs ys : List Event}
    (hx : precedes a b xs) (hy : precedes a b ys) : precedes a b (xs ++ ys) := by
  induction xs with
  | nil => exact hy
  | cons x xs' ih =>
    by_cases hxa : x = a
    · intro hmem
      subst hxa
      simp [List.takeWhile] at hmem
    · intro hmem
      rw [List.cons_append] at hmem
      rw [show List.takeWhile (fun e => decide (e ≠ a)) (x :: (xs' ++ ys)) =
          x :: List.takeWhile (fun e => decide (e ≠ a)) (xs' ++ ys) by
        simp [List.takeWhile, hxa]] at hmem
      rcases List.mem_cons.mp hmem with rfl | hmem'
      · apply hx
        rw [show List.takeWhile (fun e => decide (e ≠ a)) (b :: xs') =
            b :: List.takeWhile (fun e => decide (e ≠ a)) xs' by
          simp [List.takeWhile, hxa]]
        exact List.mem_cons_self _ _
      · have hx' : precedes a b xs' := by
          intro hmem''
          apply hx
          rw [show List.takeWhile (fun e => decide (e ≠ a)) (x :: xs') =
              x :: List.takeWhile (fun e => decide (e ≠ a)) xs' by
            simp [List.takeWhile, hxa]]
          exact List.mem_cons_of_mem _ hmem''
        exact ih hx' hmem'

theorem takeWhile_append_of_mem {a : Event} {xs ys : List Event} (h : a ∈ xs) :
    (xs ++ ys).takeWhile (fun e => decide (e ≠ a)) =
      xs.takeWhile (fun e => decide (e ≠ a)) := by
  induction xs with
  | nil => cases h
  | cons x xs' ih =>
    by_cases hxa : x = a
    · subst hxa
      simp [List.takeWhile]
    · rcases List.mem_cons.mp h with rfl | h'
      · exact absurd rfl hxa
      · rw [List.cons_append]
        rw [show List.takeWhile (fun e => decide (e ≠ a)) (x :: (xs' ++ ys)) =
            x :: List.takeWhile (fun e => decide (e ≠ a)) (xs' ++ ys) by
          simp [List.takeWhile, hxa]]
        rw [show List.takeWhile (fun e => decide (e ≠ a)) (x :: xs') =
            x :: List.takeWhile (fun e => decide (e ≠ a)) xs' by
          simp [List.takeWhile, hxa]]
        rw [ih h']

theorem precedes_append_left {a b : Event} {xs ys : List Event}
    (hmem : a ∈ xs) (hx : precedes a b xs) : precedes a b (xs ++ ys) := by
  intro h
  rw [takeWhile_append_of_mem hmem] at h
  exact hx h

/-! ### Stage traces -/

theorem stageSeq_mem {s k : List Event × Option String} {x : Event}
    (h : x ∈ (stageSeq s k).1) : x ∈ s.1 ∨ x ∈ k.1 := by
  rcases s with ⟨evs, r⟩
  cases r with
  | some e => exact Or.inl h
  | none =>
    rcases List.mem_append.mp h with h' | h'
    · exact Or.inl h'
    · exact Or.inr h'

theorem stageSeq_parts_success {s k : List Event × Option String}
    (h : (stageSeq s k).2 = none) : s.2 = none ∧ k.2 = none := by
  rcases s with ⟨evs, r⟩
  cases r with
  | some e => cases h
  | none => exact ⟨rfl, h⟩

theorem stageSeq_trace_success {s k : List Event × Option String}
    (hs : s.2 = none) : (stageSeq s k).1 = s.1 ++ k.1 := by
  rcases s with ⟨evs, r⟩
  cases r with
  | some e => cases hs
  | none => rfl

theorem ledgerStage_mem {env : Env} {x : Event} (h : x ∈ (ledgerStage env).1) :
    x = Event.ledgerPost := by
  unfold ledgerStage at h
  split at h <;> simp_all

theorem customersStage_mem {env : Env} {x : Event} (h : x ∈ (customersStage env).1) :
    x = Event.customerStatusCheck ∨ x = Event.disclaimerCheck := by
  unfold customersStage at h
  split at h <;> simp_all

theorem fileStage_mem {env : Env} {x : Event} (h : x ∈ (fileStage env).1) :
    x = Event.fileConstruct ∨ x = Event.fileUpload ∨ x = Event.fileCheck := by
  unfold fileStage at h
  split at h <;> (try split at h) <;> (try split at h) <;> (simp_all; try tauto)

theorem auditStage_mem {env : Env} {x : Event} (h : x ∈ (auditStage env).1) :
    x = Event.auditEvent := by
  unfold auditStage at h
  rcases List.mem_cons.mp h with rfl | h'
  · rfl
  · cases h'

theorem fileStage_success {env : Env} (h : (fileStage env).2 = none) :
    (fileStage env).1 = [Event.fileConstruct, Event.fileUpload, Event.fileCheck] := by
  unfold fileStage at h ⊢
  split at h <;> (try split at h) <;> (try split at h) <;> simp_all

/-- Events of the post-limit collaborator chain: never `persist`, never
`entityLookup`, never `limitCheck`. -/
theorem tailStages_mem {env : Env} {x : Event}
    (h : x ∈ (stageSeq (ledgerStage env) (stageSeq (customersStage env)
      (stageSeq (fileStage env) (auditStage env)))).1) :
    x = Event.ledgerPost ∨ x = Event.customerStatusCheck ∨ x = Event.disclaimerCheck ∨
    x = Event.fileConstruct ∨ x = Event.fileUpload ∨ x = Event.fileCheck ∨
    x = Event.auditEvent := by
  rcases stageSeq_mem h with h1 | h1
  · exact Or.inl (ledgerStage_mem h1)
  · rcases stageSeq_mem h1 with h2 | h2
    · rcases customersStage_mem h2 with h3 | h3
      · exact Or.inr (Or.inl h3)
      · exact Or.inr (Or.inr (Or.inl h3))
    · rcases stageSeq_mem h2 with h3 | h3
      · rcases fileStage_mem h3 with h4 | h4 | h4
        · exact Or.inr (Or.inr (Or.inr (Or.inl h4)))
        · exact Or.inr (Or.inr (Or.inr (Or.inr (Or.inl h4))))
        · exact Or.inr (Or.inr (Or.inr (Or.inr (Or.inr (Or.inl h4)))))
      · exact Or.inr (Or.inr (Or.inr (Or.inr (Or.inr (Or.inr (auditStage_mem h3))))))

theorem takeWhile_ne_head (a : Event) (tl : List Event) :
    List.takeWhile (fun e => decide (e ≠ a)) (a :: tl) = [] := by
  simp [List.takeWhile]

theorem takeWhile_stop_second {a x : Event} (hx : x ≠ a) (tl : List Event) :
    List.takeWhile (fun e => decide (e ≠ a)) (x :: a :: tl) = [x] := by
  simp [List.takeWhile, hx]

/-- Every per-request trace is empty, a lone entity lookup, or starts with the
entity lookup followed by the limit check. -/
theorem processOne_shape (env : Env) (uid : String) (req : TransferRequest) :
    (processOne env uid req).1 = [] ∨
    (processOne env uid req).1 = [Event.entityLookup] ∨
    ∃ k, (processOne env uid req).1 = Event.entityLookup :: Event.limitCheck :: k := by
  unfold processOne
  cases hmf : missingFields req with
  | some e => exact Or.inl rfl
  | none =>
    rcases getTransferObjects_split env req uid with ⟨e, heq⟩ | ⟨r, rd, o, od, heq, _⟩
    · rw [heq]
      exact Or.inr (Or.inl rfl)
    · rw [heq]
      cases hle : env.limitErr with
      | some e => exact Or.inr (Or.inr ⟨[], rfl⟩)
      | none => exact Or.inr (Or.inr ⟨_, rfl⟩)

theorem processOne_no_persist (env : Env) (uid : String) (req : TransferRequest) :
    Event.persist ∉ (processOne env uid req).1 := by
  unfold processOne
  cases hmf : missingFields req with
  | some e => intro h; cases h
  | none =>
    rcases getTransferObjects_split env req uid with ⟨e, heq⟩ | ⟨r, rd, o, od, heq, _⟩
    · rw [heq]
      intro h
      simp at h
    · rw [heq]
      cases hle : env.limitErr with
      | some e => intro h; simp at h
      | none =>
        intro h
        rcases List.mem_append.mp h with h' | h'
        · simp at h'
        · rcases tailStages_mem h' with h'' | h'' | h'' | h'' | h'' | h'' | h'' <;> cases h''

theorem processOne_precedes_el_lc (env : Env) (uid : String) (req : TransferRequest) :
    precedes Event.entityLookup Event.limitCheck (processOne env uid req).1 := by
  rcases processOne_shape env uid req with h | h | ⟨k, h⟩ <;> unfold precedes <;> rw [h]
  · intro hmem; cases hmem
  · rw [takeWhile_ne_head]
    intro hmem; cases hmem
  · rw [takeWhile_ne_head]
    intro hmem; cases hmem

theorem processOne_precedes_lc {b : Event} (hb : b ≠ Event.entityLookup)
    (env : Env) (uid : String) (req : TransferRequest) :
    precedes Event.limitCheck b (processOne env uid req).1 := by
  rcases processOne_shape env uid req with h | h | ⟨k, h⟩ <;> unfold precedes <;> rw [h]
  · intro hmem; cases hmem
  · rw [show List.takeWhile (fun e => decide (e ≠ Event.limitCheck))
        [Event.entityLookup] = [Event.entityLookup] from rfl]
    simpa using hb
  · rw [takeWhile_stop_second (by decide) k]
    simpa using hb

theorem processOne_success_parts {env : Env} {uid : String} {req : TransferRequest}
    (h : (processOne env uid req).2 = none) :
    (ledgerStage env).2 = none ∧ (customersStage env).2 = none ∧
    (fileStage env).2 = none ∧
    (processOne env uid req).1 = Event.entityLookup :: Event.limitCheck ::
      (stageSeq (ledgerStage env) (stageSeq (customersStage env)
        (stageSeq (fileStage env) (auditStage env)))).1 := by
  unfold processOne at h ⊢
  split at h
  · cases h
  · split at h
    · split at h
      · cases h
      · have hK : (stageSeq (ledgerStage env) (stageSeq (customersStage env)
            (stageSeq (fileStage env) (auditStage env)))).2 = none := h
        obtain ⟨hl, hrest⟩ := stageSeq_parts_success hK
        obtain ⟨hc, hrest2⟩ := stageSeq_parts_success hrest
        obtain ⟨hf, _⟩ := stageSeq_parts_success hrest2
        exact ⟨hl, hc, hf, rfl⟩
    · cases h

theorem processOne_success_head {env : Env} {uid : String} {req : TransferRequest}
    (h : (processOne env uid req).2 = none) :
    ∃ k, (processOne env uid req).1 = Event.entityLookup :: Event.limitCheck :: k :=
  ⟨_, (processOne_success_parts h).2.2.2⟩

theorem processOne_success_fileUpload {env : Env} {uid : String} {req : TransferRequest}
    (h : (processOne env uid req).2 = none) :
    Event.fileUpload ∈ (processOne env uid req).1 := by
  obtain ⟨hl, hc, hf, htr⟩ := processOne_success_parts h
  rw [htr]
  apply List.mem_cons_of_mem
  apply List.mem_cons_of_mem
  rw [stageSeq_trace_success hl]
  apply List.mem_append_right
  rw [stageSeq_trace_success hc]
  apply List.mem_append_right
  rw [stageSeq_trace_success hf]
  apply List.mem_append_left
  rw [fileStage_success hf]
  decide

theorem processAll_precedes {a b : Event} (env : Env) (uid : String)
    (h : ∀ req, precedes a b (processOne env uid req).1) :
    ∀ reqs, precedes a b (processAll env uid reqs).1 := by
  intro reqs
  induction reqs with
  | nil => exact precedes_nil a b
  | cons req rest ih =>
    unfold processAll
    cases hpo : processOne env uid req with
    | mk evs res =>
      cases res with
      | some e =>
        have hc := h req
        rw [hpo] at hc
        exact hc
      | none =>
        have hc := h req
        rw [hpo] at hc
        exact precedes_append hc ih

theorem processAll_no_persist (env : Env) (uid : String) (reqs : List TransferRequest) :
    Event.persist ∉ (processAll env uid reqs).1 := by
  induction reqs with
  | nil => intro h; cases h
  | cons req rest ih =>
    unfold processAll
    cases hpo : processOne env uid req with
    | mk evs res =>
      have hnp := processOne_no_persist env uid req
      rw [hpo] at hnp
      cases res with
      | some e => exact hnp
      | none =>
        intro h
        rcases List.mem_append.mp h with h' | h'
        · exact hnp h'
        · exact ih h'

theorem processAll_cons_fail (env : Env) (uid : String) (req : TransferRequest)
    (rest : List TransferRequest) {evs : List Event} {e : String}
    (hpo : processOne env uid req = (evs, some e)) :
    processAll env uid (req :: rest) = (evs, some e) := by
  have hstep : processAll env uid (req :: rest) =
      match processOne env uid req with
      | (evs', some e) => (evs', some e)
      | (evs', none) => (evs' ++ (processAll env uid rest).1, (processAll env uid rest).2) := by
    conv_lhs => unfold processAll
  rw [hstep, hpo]

theorem processAll_cons_ok (env : Env) (uid : String) (req : TransferRequest)
    (rest : List TransferRequest) {evs : List Event}
    (hpo : processOne env uid req = (evs, none)) :
    processAll env uid (req :: rest) =
      (evs ++ (processAll env uid rest).1, (processAll env uid rest).2) := by
  have hstep : processAll env uid (req :: rest) =
      match processOne env uid req with
      | (evs', some e) => (evs', some e)
      | (evs', none) => (evs' ++ (processAll env uid rest).1, (processAll env uid rest).2) := by
    conv_lhs => unfold processAll
  rw [hstep, hpo]

theorem processAll_cons_success {env : Env} {uid : String} {req : TransferRequest}
    {rest : List TransferRequest}
    (h : (processAll env uid (req :: rest)).2 = none) :
    (processOne env uid req).2 = none ∧
    (processAll env uid (req :: rest)).1 =
      (processOne env uid req).1 ++ (processAll env uid rest).1 := by
  cases hpo : processOne env uid req with
  | mk evs res =>
    cases res with
    | some e =>
      rw [processAll_cons_fail env uid req rest hpo] at h
      simp at h
    | none =>
      rw [processAll_cons_ok env uid req rest hpo]
      exact ⟨rfl, rfl⟩

theorem readTransferRequests_ne_nil {body : CreateBody} {reqs : List TransferRequest}
    (h : readTransferRequests body = .ok reqs) : reqs ≠ [] := by
  cases body with
  | single req =>
    unfold readTransferRequests at h
    dsimp only at h
    split at h
    · cases h
    · cases h
      exact List.cons_ne_nil _ _
  | arr reqs' =>
    cases reqs' with
    | nil => cases h
    | cons r rest =>
      cases h
      exact List.cons_ne_nil _ _

theorem createCore_eq_fail {env : Env} {uid : String} {body : CreateBody} {e : String}
    (hread : readTransferRequests body = .error e) :
    createCore env uid body = ([], .problem e, []) := by
  unfold createCore
  rw [hread]

theorem createCore_eq_allfail {env : Env} {uid : String} {body : CreateBody}
    {requests : List TransferRequest} {evs : List Event} {e : String}
    (hread : readTransferRequests body = .ok requests)
    (hall : processAll env uid requests = (evs, some e)) :
    createCore env uid body = (evs, .problem e, []) := by
  unfold createCore
  rw [hread]
  dsimp only
  rw [hall]

theorem createCore_eq_persistfail {env : Env} {uid : String} {body : CreateBody}
    {requests : List TransferRequest} {evs : List Event} {e : String}
    (hread : readTransferRequests body = .ok requests)
    (hall : processAll env uid requests = (evs, none))
    (hpe : env.persistErr = some e) :
    createCore env uid body = (evs ++ [.persist], .problem e, []) := by
  unfold createCore
  rw [hread]
  dsimp only
  rw [hall]
  dsimp only
  rw [hpe]

theorem createCore_eq_ok {env : Env} {uid : String} {body : CreateBody}
    {requests : List TransferRequest} {evs : List Event}
    (hread : readTransferRequests body = .ok requests)
    (hall : processAll env uid requests = (evs, none))
    (hpe : env.persistErr = none) :
    createCore env uid body =
      (evs ++ [.persist],
        .ok (writeResponse requests.length (requests.map (fun r => asTransfer r uid ""))),
        requests.map (fun r => asTransfer r uid "")) := by
  unfold createCore
  rw [hread]
  dsimp only
  rw [hall]
  dsimp only
  rw [hpe]

theorem createCore_props (env : Env) (uid : String) (body : CreateBody) :
    precedes Event.entityLookup Event.limitCheck (createCore env uid body).1 ∧
    precedes Event.limitCheck Event.ledgerPost (createCore env uid body).1 ∧
    precedes Event.limitCheck Event.fileUpload (createCore env uid body).1 ∧
    precedes Event.limitCheck Event.persist (createCore env uid body).1 ∧
    precedes Event.fileUpload Event.persist (createCore env uid body).1 ∧
    (∀ t ∈ (createCore env uid body).2.2, t.status = TransferStatus.pending) := by
  cases hread : readTransferRequests body with
  | error e =>
    rw [createCore_eq_fail hread]
    exact ⟨precedes_nil _ _, precedes_nil _ _, precedes_nil _ _, precedes_nil _ _,
      precedes_nil _ _, fun t ht => absurd ht (List.not_mem_nil t)⟩
  | ok requests =>
    cases hall : processAll env uid requests with
    | mk evs res =>
      have hel : precedes Event.entityLookup Event.limitCheck evs := by
        have h := processAll_precedes env uid (processOne_precedes_el_lc env uid) requests
        rw [hall] at h
        exact h
      have hlp : precedes Event.limitCheck Event.ledgerPost evs := by
        have h := processAll_precedes env uid
          (@processOne_precedes_lc Event.ledgerPost (by decide) env uid) requests
        rw [hall] at h
        exact h
      have hfu : precedes Event.limitCheck Event.fileUpload evs := by
        have h := processAll_precedes env uid
          (@processOne_precedes_lc Event.fileUpload (by decide) env uid) requests
        rw [hall] at h
        exact h
      have hnp : Event.persist ∉ evs := by
        have h := processAll_no_persist env uid requests
        rw [hall] at h
        exact h
      cases res with
      | some e =>
        rw [createCore_eq_allfail hread hall]
        exact ⟨hel, hlp, hfu, precedes_of_not_mem hnp, precedes_of_not_mem hnp,
          fun t ht => absurd ht (List.not_mem_nil t)⟩
      | none =>
        obtain ⟨req, rest, rfl⟩ : ∃ req rest, requests = req :: rest := by
          cases requests with
          | nil => exact absurd rfl (readTransferRequests_ne_nil hread)
          | cons a b => exact ⟨a, b, rfl⟩
        obtain ⟨hchunk, htr⟩ := processAll_cons_success (by rw [hall])
        have hevs : evs = (processOne env uid req).1 ++ (processAll env uid rest).1 := by
          have h := htr
          rw [hall] at h
          exact h
        have hlc_mem : Event.limitCheck ∈ evs := by
          obtain ⟨k, hk⟩ := processOne_success_head hchunk
          rw [hevs]
          apply List.mem_append_left
          rw [hk]
          exact List.mem_cons_of_mem _ (List.mem_cons_self _ _)
        have hfu_mem : Event.fileUpload ∈ evs := by
          rw [hevs]
          exact List.mem_append_left _ (processOne_success_fileUpload hchunk)
        have h1' : precedes Event.entityLookup Event.limitCheck (evs ++ [Event.persist]) :=
          precedes_append hel (by unfold precedes; decide)
        have h2' : precedes Event.limitCheck Event.ledgerPost (evs ++ [Event.persist]) :=
          precedes_append hlp (by unfold precedes; decide)
        have h3' : precedes Event.limitCheck Event.fileUpload (evs ++ [Event.persist]) :=
          precedes_append hfu (by unfold precedes; decide)
        have h4' : precedes Event.limitCheck Event.persist (evs ++ [Event.persist]) :=
          precedes_append_left hlc_mem (precedes_of_not_mem hnp)
        have h5' : precedes Event.fileUpload Event.persist (evs ++ [Event.persist]) :=
          precedes_append_left hfu_mem (precedes_of_not_mem hnp)
        cases hpe : env.persistErr with
        | some e =>
          rw [createCore_eq_persistfail hread hall hpe]
          exact ⟨h1', h2', h3', h4', h5', fun t ht => absurd ht (List.not_mem_nil t)⟩
        | none =>
          rw [createCore_eq_ok hread hall hpe]
          refine ⟨h1', h2', h3', h4', h5', ?_⟩
          intro t ht
          obtain ⟨r, _, rfl⟩ := List.mem_map.mp ht
          rfl

/-- C1 (amended): the idempotency gate runs first and a duplicate key stops the
call with no events at all; in the per-request pipeline the entity validation
runs before the limit check (not after, as the original claim ordered them),
and no ledger post, file upload, or persistence happens before a limit check has
passed; every persisted transfer has status `Pending`. -/
theorem claim_C1 (env : Env) (uid : String) (idemKey : Option String)
    (body : CreateBody) :
    (∀ k, idemKey = some k → k ∈ env.seenKeys →
      createUserTransfers env uid idemKey body =
        ([], HandlerResult.preconditionFailed, [])) ∧
    precedes Event.entityLookup Event.limitCheck
      (createUserTransfers env uid idemKey body).1 ∧
    precedes Event.limitCheck Event.ledgerPost
      (createUserTransfers env uid idemKey body).1 ∧
    precedes Event.limitCheck Event.fileUpload
      (createUserTransfers env uid idemKey body).1 ∧
    precedes Event.limitCheck Event.persist
      (createUserTransfers env uid idemKey body).1 ∧
    precedes Event.fileUpload Event.persist
      (createUserTransfers env uid idemKey body).1 ∧
    (∀ t ∈ (createUserTransfers env uid idemKey body).2.2,
      t.status = TransferStatus.pending) := by
  unfold createUserTransfers
  cases idemKey with
  | none =>
    dsimp only
    refine ⟨fun k hk => ?_, ?_⟩
    · cases hk
    · exact createCore_props env uid body
  | some k =>
    dsimp only
    by_cases hmem : k ∈ env.seenKeys
    · have hsb : SeenBefore k env.seenKeys = (true, env.seenKeys) := by
        unfold SeenBefore
        rw [if_pos hmem]
      rw [hsb]
      exact ⟨fun k' _ _ => rfl, precedes_nil _ _, precedes_nil _ _, precedes_nil _ _,
        precedes_nil _ _, precedes_nil _ _, fun t ht => absurd ht (List.not_mem_nil t)⟩
    · have hsb : SeenBefore k env.seenKeys = (false, k :: env.seenKeys) := by
        unfold SeenBefore
        rw [if_neg hmem]
      rw [hsb]
      refine ⟨fun k' hk' hmem' => ?_, ?_⟩
      · cases hk'
        exact absurd hmem' hmem
      · exact createCore_props env uid body

/-- A request whose four entities all resolve and verify. -/
def reqOK : TransferRequest :=
  { transferType := "push", amount := "USD 12.00", originator := "o1",
    originatorDepository := "od1", receiver := "r1", receiverDepository := "rd1",
    description := "", standardEntryClassCode := "PPD", sameDay := false,
    ccdDetail := none, iatDetail := none, telDetail := none, webDetail := none }

/-- The same request pointing at a receiver that does not exist. -/
def reqBadReceiver : TransferRequest := { reqOK with receiver := "nope" }

/-- A fully healthy collaborator environment for user "u", with one key already
seen by the idempotency recorder. -/
def envOK : Env :=
  { receivers := [(("r1", "u"), { id := "r1", validateErr := none })]
    originators := [(("o1", "u"), { id := "o1", validateErr := none })]
    depositories :=
      [(("rd1", "u"), { id := "rd1", status := .verified, validateErr := none }),
       (("od1", "u"), { id := "od1", status := .verified, validateErr := none })]
    limitErr := none
    accounts := some (none, "tx1")
    customers := some (none, none)
    constructFileErr := none
    createFile := .ok "file1"
    checkFileErr := none
    writeEventErr := none
    persistErr := none
    seenKeys := ["dup-key"] }

/-- The same environment with the limit checker rejecting. -/
def envLim : Env := { envOK with limitErr := some "transfers over limit" }

/-- C1 refuted as stated: the claim orders the limit check before entity
resolution, but in a run where the limit checker rejects, the trace already
contains the entity lookup before the first (and failing) limit check — the
validation pipeline resolved the entities first. -/
theorem claim_C1_counterexample :
    ¬ precedes Event.limitCheck Event.entityLookup
        (createUserTransfers envLim "u" none (.single reqOK)).1 ∧
    (createUserTransfers envLim "u" none (.single reqOK)).2.1 =
      .problem "transfers over limit" :=
  ⟨fun h => h (by decide), rfl⟩

/-- Closed instance of C1: the duplicate-key gate short-circuits the whole call,
and a persisted transfer carries status `Pending`. -/
theorem claim_C1_witness :
    createUserTransfers envOK "u" (some "dup-key") (.single reqOK) =
      ([], HandlerResult.preconditionFailed, []) ∧
    (asTransfer reqOK "u" "").status = TransferStatus.pending :=
  ⟨(claim_C1 envOK "u" (some "dup-key") (.single reqOK)).1 "dup-key" rfl (by decide),
   (claim_C1 envOK "u" none (.single reqOK)).2.2.2.2.2.2 (asTransfer reqOK "u" "")
     (by decide)⟩

theorem createCore_shape (env : Env) (uid : String) (body : CreateBody) :
    (∃ e, (createCore env uid body).2.1 = .problem e) ∨
    ∃ requests, readTransferRequests body = .ok requests ∧
      (createCore env uid body).2.1 =
        .ok (writeResponse requests.length
          (requests.map (fun r => asTransfer r uid ""))) := by
  cases hread : readTransferRequests body with
  | error e =>
    rw [createCore_eq_fail hread]
    exact Or.inl ⟨e, rfl⟩
  | ok requests =>
    cases hall : processAll env uid requests with
    | mk evs res =>
      cases res with
      | some e =>
        rw [createCore_eq_allfail hread hall]
        exact Or.inl ⟨e, rfl⟩
      | none =>
        cases hpe : env.persistErr with
        | some e =>
          rw [createCore_eq_persistfail hread hall hpe]
          exact Or.inl ⟨e, rfl⟩
        | none =>
          rw [createCore_eq_ok hread hall hpe]
          exact Or.inr ⟨requests, rfl, rfl⟩

theorem createUserTransfers_shape (env : Env) (uid : String) (k : Option String)
    (body : CreateBody) :
    (createUserTransfers env uid k body).2.1 = HandlerResult.preconditionFailed ∨
    (createUserTransfers env uid k body).2.1 = (createCore env uid body).2.1 := by
  unfold createUserTransfers
  cases k with
  | none => exact Or.inr rfl
  | some key =>
    dsimp only
    by_cases hmem : key ∈ env.seenKeys
    · have hsb : SeenBefore key env.seenKeys = (true, env.seenKeys) := by
        unfold SeenBefore
        rw [if_pos hmem]
      rw [hsb]
      exact Or.inl rfl
    · have hsb : SeenBefore key env.seenKeys = (false, key :: env.seenKeys) := by
        unfold SeenBefore
        rw [if_neg hmem]
      rw [hsb]
      exact Or.inr rfl

theorem read_single_ok {req : TransferRequest} {reqs : List TransferRequest}
    (h : readTransferRequests (.single req) = .ok reqs) : reqs = [req] := by
  unfold readTransferRequests at h
  dsimp only at h
  split at h
  · cases h
  · cases h
    rfl

theorem read_arr_ok {reqs' reqs : List TransferRequest}
    (h : readTransferRequests (.arr reqs') = .ok reqs) : reqs = reqs' := by
  cases reqs' with
  | nil => cases h
  | cons a b =>
    cases h
    rfl

theorem read_arr_eq {reqs' : List TransferRequest} (h : reqs' ≠ []) :
    readTransferRequests (.arr reqs') = .ok reqs' := by
  cases reqs' with
  | nil => exact absurd rfl h
  | cons a b => rfl

/-- C3 (amended): the response is a bare JSON object exactly when the number of
parsed requests is one — a single posted object yields an object, but a posted
array of length one also yields a bare object (not a one-element array, as the
original claim demanded); arrays of two or more yield arrays. -/
theorem claim_C3 :
    (∀ env uid k req,
      (createUserTransfers env uid k (.single req)).2.1.isArrayResponse = false) ∧
    (∀ env uid k req,
      (createUserTransfers env uid k (.arr [req])).2.1.isArrayResponse = false) ∧
    (∀ env uid k reqs, 2 ≤ reqs.length →
      (createUserTransfers env uid k (.arr reqs)).2.1.isObjectResponse = false) := by
  refine ⟨?_, ?_, ?_⟩
  · intro env uid k req
    rcases createUserTransfers_shape env uid k (.single req) with h | h
    · rw [h]
      rfl
    · rw [h]
      rcases createCore_shape env uid (.single req) with ⟨e, h2⟩ | ⟨requests, hr, h2⟩
      · rw [h2]
        rfl
      · rw [h2, read_single_ok hr]
        rfl
  · intro env uid k req
    rcases createUserTransfers_shape env uid k (.arr [req]) with h | h
    · rw [h]
      rfl
    · rw [h]
      rcases createCore_shape env uid (.arr [req]) with ⟨e, h2⟩ | ⟨requests, hr, h2⟩
      · rw [h2]
        rfl
      · rw [h2, read_arr_ok hr]
        rfl
  · intro env uid k reqs hlen
    rcases createUserTransfers_shape env uid k (.arr reqs) with h | h
    · rw [h]
      rfl
    · rw [h]
      rcases createCore_shape env uid (.arr reqs) with ⟨e, h2⟩ | ⟨requests, hr, h2⟩
      · rw [h2]
        rfl
      · rw [h2, read_arr_ok hr]
        unfold writeResponse
        rw [if_neg (by omega)]
        rfl

/-- C3 refuted as stated: posting an array containing exactly one transfer
yields a bare JSON object, not a single-element array. -/
theorem claim_C3_counterexample :
    (createUserTransfers envOK "u" none (.arr [reqOK])).2.1.isObjectResponse = true ∧
    (createUserTransfers envOK "u" none (.arr [reqOK])).2.1.isArrayResponse = false :=
  ⟨rfl, rfl⟩

/-- Closed instance of C3: a two-element batch never renders a bare object. -/
theorem claim_C3_witness :
    (createUserTransfers envOK "u" none
      (.arr [reqOK, reqOK])).2.1.isObjectResponse = false :=
  claim_C3.2.2 envOK "u" none [reqOK, reqOK] (by decide)

theorem processAll_append_fail {env : Env} {uid : String}
    (pre : List TransferRequest) {bad : TransferRequest}
    {rest : List TransferRequest} {e : String}
    (hpre : ∀ r ∈ pre, (processOne env uid r).2 = none)
    (hbad : (processOne env uid bad).2 = some e) :
    processAll env uid (pre ++ bad :: rest) =
      ((pre.map (fun r => (processOne env uid r).1)).flatten ++ (processOne env uid bad).1,
        some e) := by
  induction pre with
  | nil =>
    have hpo : processOne env uid bad = ((processOne env uid bad).1, some e) := by
      rw [← hbad]
    rw [List.nil_append, processAll_cons_fail env uid bad rest hpo]
    simp
  | cons p pre' ih =>
    have hp : (processOne env uid p).2 = none := hpre p (List.mem_cons_self _ _)
    have hpo : processOne env uid p = ((processOne env uid p).1, none) := by
      rw [← hp]
    rw [List.cons_append, processAll_cons_ok env uid p (pre' ++ bad :: rest) hpo,
      ih (fun r hr => hpre r (List.mem_cons_of_mem _ hr))]
    simp [List.append_assoc]

/-- C5 (amended): in a multi-transfer batch, the first failing request stops the
processing — the trace is exactly the side effects of the completed earlier
requests followed by the failing request's partial trace, only that failure is
reported, the earlier side effects are not compensated, and (correcting the
original claim) no transfer at all is persisted, because persistence runs once
after the whole loop. -/
theorem claim_C5 (env : Env) (uid : String) (pre : List TransferRequest)
    (bad : TransferRequest) (rest : List TransferRequest) (e : String)
    (hpre : ∀ r ∈ pre, (processOne env uid r).2 = none)
    (hbad : (processOne env uid bad).2 = some e) :
    createUserTransfers env uid none (.arr (pre ++ bad :: rest)) =
      ((pre.map (fun r => (processOne env uid r).1)).flatten ++ (processOne env uid bad).1,
        .problem e, []) := by
  unfold createUserTransfers createCore
  rw [read_arr_eq (by simp)]
  dsimp only
  rw [processAll_append_fail pre hpre hbad]

/-- C5 refuted as stated: with a healthy first request and a second request
whose receiver does not resolve, the call reports only the second failure, the
first request's settlement file was already uploaded, and yet no transfer is
persisted — the earlier item is *not* "created and persisted". -/
theorem claim_C5_counterexample :
    (createUserTransfers envOK "u" none (.arr [reqOK, reqBadReceiver])).2.2 = [] ∧
    Event.fileUpload ∈ (createUserTransfers envOK "u" none
      (.arr [reqOK, reqBadReceiver])).1 ∧
    (createUserTransfers envOK "u" none (.arr [reqOK, reqBadReceiver])).2.1 =
      .problem "missing data to create transfer: receiver not found" :=
  ⟨rfl, by decide, rfl⟩

/-- Closed instance of C5 at a concrete two-request batch. -/
theorem claim_C5_witness :
    createUserTransfers envOK "u" none (.arr ([reqOK] ++ reqBadReceiver :: [])) =
      (([reqOK].map (fun r => (processOne envOK "u" r).1)).flatten ++
        (processOne envOK "u" reqBadReceiver).1,
       .problem "missing data to create transfer: receiver not found", []) :=
  claim_C5 envOK "u" [reqOK] reqBadReceiver []
    "missing data to create transfer: receiver not found" (by decide) (by decide)

/-- C6: the first `SeenBefore(k)` call returns false and records `k`; every
later call with `k` returns true; and a request arriving with an already-seen
idempotency key is rejected with the precondition-failed signal, with an empty
event trace — no limit check, ledger post, or file upload happens for the
duplicate.  (The recorder itself lives in the route package, modelled from the
spec; its test fixes this behaviour.) -/
theorem claim_C6 :
    (∀ k store, k ∉ store → SeenBefore k store = (false, k :: store)) ∧
    (∀ k store, k ∈ store → (SeenBefore k store).1 = true) ∧
    (∀ k store, k ∈ (SeenBefore k store).2) ∧
    (∀ env uid k body, k ∈ env.seenKeys →
      createUserTransfers env uid (some k) body =
        ([], HandlerResult.preconditionFailed, [])) := by
  refine ⟨?_, ?_, ?_, ?_⟩
  · intro k store h
    unfold SeenBefore
    rw [if_neg h]
  · intro k store h
    unfold SeenBefore
    rw [if_pos h]
  · intro k store
    unfold SeenBefore
    split
    · next h => exact h
    · exact List.mem_cons_self _ _
  · intro env uid k body h
    unfold createUserTransfers
    dsimp only
    have hsb : SeenBefore k env.seenKeys = (true, env.seenKeys) := by
      unfold SeenBefore
      rw [if_pos h]
    rw [hsb]

/-- Closed instance of C6: fresh key recorded, duplicate key detected, and the
duplicate request short-circuited. -/
theorem claim_C6_witness :
    SeenBefore "k1" [] = (false, ["k1"]) ∧
    (SeenBefore "dup-key" ["dup-key"]).1 = true ∧
    createUserTransfers envOK "u" (some "dup-key") (.single reqOK) =
      ([], HandlerResult.preconditionFailed, []) :=
  ⟨claim_C6.1 "k1" [] (by decide), claim_C6.2.1 "dup-key" ["dup-key"] (by decide),
   claim_C6.2.2.2 envOK "u" "dup-key" (.single reqOK) (by decide)⟩

/-! ### Transfer deletion (deleteUserTransfer) -/

/-- Collaborators of one `deleteUserTransfer` call: the transfer repository
(records keyed by (transferID, userID)), the `GetFileIDForTransfer` table (a
missing row is sql.ErrNoRows), and the ACH client's `DeleteFile` outcome. -/
structure DeleteEnv where
  transfers : List ((String × String) × Transfer)
  fileIDs : List ((String × String) × String)
  remoteDeleteErr : Option String
deriving DecidableEq

inductive DeleteResult
  | ok
  | problem (e : String)
deriving DecidableEq

def statusName : TransferStatus → String
  | .pending => "pending"
  | .completed => "completed"
  | .failed => "failed"

/-- Remove a record from an association list. -/
def removeKey {α : Type} (k : String × String) :
    List ((String × String) × α) → List ((String × String) × α)
  | [] => []
  | (k', v) :: rest => if k = k' then removeKey k rest else (k', v) :: removeKey k rest

/-- The `deleteUserTransfer` handler of transfers.go: look the transfer up, refuse unless
its status is `Pending`, delete it from the local database, then look up the
settlement-file ID (tolerating sql.ErrNoRows) and, when a file ID exists,
ask the ACH service to delete the remote file; a remote failure is reported to
the caller, but the local record was already deleted before that call. -/
def deleteUserTransfer (env : DeleteEnv) (transferID userID : String) :
    DeleteResult × DeleteEnv :=
  match findBy (transferID, userID) env.transfers with
  | none => (.problem "transfer not found", env)
  | some t =>
    if t.status ≠ TransferStatus.pending then
      (.problem ("a " ++ statusName t.status ++ " transfer can't be deleted"), env)
    else
      match findBy (transferID, userID) env.fileIDs with
      | none => (.ok, { env with transfers := removeKey (transferID, userID) env.transfers })
      | some fileID =>
        if fileID = "" then
          (.ok, { env with transfers := removeKey (transferID, userID) env.transfers })
        else
          match env.remoteDeleteErr with
          | some e =>
            (.problem e, { env with transfers := removeKey (transferID, userID) env.transfers })
          | none =>
            (.ok, { env with transfers := removeKey (transferID, userID) env.transfers })

theorem findBy_removeKey {α : Type} (k : String × String)
    (l : List ((String × String) × α)) : findBy k (removeKey k l) = none := by
  induction l with
  | nil => rfl
  | cons p rest ih =>
    rcases p with ⟨k', v⟩
    unfold removeKey
    by_cases hk : k = k'
    · rw [if_pos hk]
      exact ih
    · rw [if_neg hk]
      unfold findBy
      rw [if_neg hk]
      exact ih

/-- C4 (amended): deletion is permitted only while the transfer is `Pending`
(otherwise the call fails and the repository is unchanged); a missing local
file-ID row (no settlement file ever uploaded) is tolerated and deletion
succeeds; when an uploaded file exists a remote delete is attempted, and if it
fails the call reports the failure — but, correcting the original claim, the
local record has already been deleted and is not restored. -/
theorem claim_C4 (env : DeleteEnv) (tid uid : String) :
    (∀ t, findBy (tid, uid) env.transfers = some t →
      t.status ≠ TransferStatus.pending →
      deleteUserTransfer env tid uid =
        (.problem ("a " ++ statusName t.status ++ " transfer can't be deleted"), env)) ∧
    (findBy (tid, uid) env.transfers = none →
      deleteUserTransfer env tid uid = (.problem "transfer not found", env)) ∧
    (∀ t, findBy (tid, uid) env.transfers = some t →
      t.status = TransferStatus.pending →
      findBy (tid, uid) (deleteUserTransfer env tid uid).2.transfers = none) ∧
    (∀ t, findBy (tid, uid) env.transfers = some t →
      t.status = TransferStatus.pending →
      findBy (tid, uid) env.fileIDs = none →
      (deleteUserTransfer env tid uid).1 = .ok) ∧
    (∀ t fileID e, findBy (tid, uid) env.transfers = some t →
      t.status = TransferStatus.pending →
      findBy (tid, uid) env.fileIDs = some fileID → fileID ≠ "" →
      env.remoteDeleteErr = some e →
      deleteUserTransfer env tid uid =
        (.problem e,
          { env with transfers := removeKey (tid, uid) env.transfers })) ∧
    (∀ t fileID, findBy (tid, uid) env.transfers = some t →
      t.status = TransferStatus.pending →
      findBy (tid, uid) env.fileIDs = some fileID → fileID ≠ "" →
      env.remoteDeleteErr = none →
      (deleteUserTransfer env tid uid).1 = .ok) := by
  refine ⟨?_, ?_, ?_, ?_, ?_, ?_⟩
  · intro t ht hst
    unfold deleteUserTransfer
    rw [ht]
    dsimp only
    rw [if_pos hst]
  · intro h
    unfold deleteUserTransfer
    rw [h]
  · intro t ht hst
    unfold deleteUserTransfer
    rw [ht]
    dsimp only
    rw [if_neg (by rw [hst]; exact fun h => h rfl)]
    cases hf : findBy (tid, uid) env.fileIDs with
    | none => exact findBy_removeKey _ _
    | some fileID =>
      dsimp only
      by_cases hfe : fileID = ""
      · rw [if_pos hfe]
        exact findBy_removeKey _ _
      · rw [if_neg hfe]
        cases hrd : env.remoteDeleteErr with
        | some e => exact findBy_removeKey _ _
        | none => exact findBy_removeKey _ _
  · intro t ht hst hf
    unfold deleteUserTransfer
    rw [ht]
    dsimp only
    rw [if_neg (by rw [hst]; exact fun h => h rfl)]
    rw [hf]
  · intro t fileID e ht hst hf hfe hrd
    unfold deleteUserTransfer
    rw [ht]
    dsimp only
    rw [if_neg (by rw [hst]; exact fun h => h rfl), hf]
    dsimp only
    rw [if_neg hfe, hrd]
  · intro t fileID ht hst hf hfe hrd
    unfold deleteUserTransfer
    rw [ht]
    dsimp only
    rw [if_neg (by rw [hst]; exact fun h => h rfl), hf]
    dsimp only
    rw [if_neg hfe, hrd]

/-- A pending transfer owned by user "u", with an uploaded settlement file, and
a failing remote delete. -/
def delEnv : DeleteEnv :=
  { transfers := [(("t1", "u"), asTransfer reqOK "u" "t1")]
    fileIDs := [(("t1", "u"), "file1")]
    remoteDeleteErr := some "remote delete exploded" }

/-- C4 refuted as stated: when the remote file delete fails, the call does
report the failure, but the local transfer record does NOT remain — it was
deleted from the repository before the remote call. -/
theorem claim_C4_counterexample :
    (deleteUserTransfer delEnv "t1" "u").1 = .problem "remote delete exploded" ∧
    findBy ("t1", "u") (deleteUserTransfer delEnv "t1" "u").2.transfers = none ∧
    findBy ("t1", "u") delEnv.transfers = some (asTransfer reqOK "u" "t1") :=
  ⟨rfl, rfl, rfl⟩

/-- Closed instance of C4: non-pending transfers cannot be deleted and the
repository is untouched. -/
theorem claim_C4_witness :
    deleteUserTransfer
      { transfers := [(("t2", "u"),
          { asTransfer reqOK "u" "t2" with status := TransferStatus.completed })]
        fileIDs := []
        remoteDeleteErr := none } "t2" "u" =
      (.problem "a completed transfer can't be deleted",
        { transfers := [(("t2", "u"),
            { asTransfer reqOK "u" "t2" with status := TransferStatus.completed })]
          fileIDs := []
          remoteDeleteErr := none }) :=
  (claim_C4 _ "t2" "u").1
    { asTransfer reqOK "u" "t2" with status := TransferStatus.completed }
    (by decide) (by decide)

end Paygate
